import Mathlib

/-!
Chrono-Tracker, the shared room timer and the pure helpers of the screens.

A shallow embedding of `src/src/screens/RoomScreen.js` (the client of the
collaborative room timer), of the room row and the join code created by
`src/Chrono-Tracker/src/screens/CreateRoomScreen.js`, of the upcoming list and
the streak of `src/Chrono-Tracker/src/screens/HomeScreen.js`, of
`getTaskNotificationDate` of `src/src/screens/PlannerScreen.js`, of the
handlers of `src/Chrono-Tracker/src/screens/TimerScreen.js` and of
`getWeekRange` of `src/src/screens/AnalysisScreen.js`.

* A JS number that is only ever an integer count of seconds is an `Int`.
* React state (`useState`) and the interval handle (`useRef`) are the fields
  of `Client`; a handler is a function from the client state to the new client
  state and the list of `timer_state` values it sends to the `rooms` table.
* The two `useEffect` hooks that depend on state are run by `effects` after
  every state change, comparing the dependency values of the previous render
  with those of the new one.
* `World` puts several clients next to the stored row, the change
  notifications emitted so far and a wall clock.
-/

namespace Room

/-! Data model -/

/-- The three `status` strings the code writes and tests: `'stopped'`,
`'running'`, `'paused'`. -/
inductive Status where
  | stopped
  | running
  | paused
deriving DecidableEq, Repr

/-- The `timer_state` JSON object. `status`, `duration` and `started_at` are the
keys of the literals at RoomScreen.js:13 and :99 (`started_at` is `null` there
and missing in the literal of CreateRoomScreen.js:56; both are `none`).
`revision` is the value of the property `timer_state.revision`: no statement of
the repository reads or assigns that key, an object carries it only when the
row it was read from had it, and the object spread `...timerState` copies it. -/
structure TimerState where
  status : Status
  duration : Int
  started_at : Option Nat
  revision : Option Nat
deriving DecidableEq, Repr

/-- The React state of one mounted `RoomScreen`: `timerState` (line 13),
`displayTime` (line 14) and whether `intervalRef.current` is a live interval
(line 15). -/
structure Client where
  timerState : TimerState
  displayTime : Int
  intervalActive : Bool
deriving DecidableEq, Repr

/-- The literal `{ status: 'stopped', duration: 1500 }` handed to
`create_new_room` (CreateRoomScreen.js:56). -/
def createdState : TimerState :=
  { status := .stopped, duration := 1500, started_at := none, revision := none }

/-- The state of a freshly mounted screen (RoomScreen.js:13-15); on mount the
countdown effect takes its `else` branch and the pause-at-zero effect does
nothing, since `displayTime` is 1500. -/
def Client.mount : Client :=
  { timerState := { status := .stopped, duration := 1500, started_at := none, revision := none },
    displayTime := 1500,
    intervalActive := false }

/-! One client -/

/-- The object `{ ...timerState, status: 'paused', duration: displayTime }`
built by `handlePause` (line 94). -/
def pausedState (c : Client) : TimerState :=
  { c.timerState with status := .paused, duration := c.displayTime }

/-- The object `{ ...timerState, status: 'running', duration: displayTime }`
built by `handleStart` (line 89). -/
def startedState (c : Client) : TimerState :=
  { c.timerState with status := .running, duration := c.displayTime }

/-- The literal `{ status: 'stopped', duration: 1500, started_at: null }` built
by `handleReset` (line 99). -/
def resetState : TimerState :=
  { status := .stopped, duration := 1500, started_at := none, revision := none }

/-- The countdown effect (lines 59-77, dependency `timerState.status`), `prev`
being the state of the render before and `next` the state just rendered: when
the status changed, the old interval is cleared and a new one is set exactly
when the status is `'running'`; otherwise the effect does not run. -/
def countdownEffect (prev next : Client) : Client :=
  if next.timerState.status = prev.timerState.status then next
  else { next with intervalActive := decide (next.timerState.status = .running) }

/-- Whether the pause-at-zero effect (lines 80-85, dependency `displayTime`)
calls `handlePause` after the render of `next`: `displayTime` changed, is 0 and
the status is `'running'`. -/
def pauseAtZero (prev next : Client) : Bool :=
  decide (next.displayTime ≠ prev.displayTime) && decide (next.displayTime = 0) &&
    decide (next.timerState.status = .running)

/-- The effects that run after a render: the countdown effect, then the
pause-at-zero effect. When the latter calls `handlePause`, `timerState` becomes
the paused object, the countdown effect of the following render clears the
interval, and the paused object is sent to the store. The result is the settled
client state and the objects sent to the store. -/
def effects (prev next : Client) : Client × List TimerState :=
  if pauseAtZero prev next then
    ({ countdownEffect prev next with timerState := pausedState next, intervalActive := false },
      [pausedState next])
  else (countdownEffect prev next, [])

/-- Function `handleStart` (lines 88-92): `setTimerState(newState)` and
`update({ timer_state: newState })`. -/
def handleStart (c : Client) : Client × List TimerState :=
  let r := effects c { c with timerState := startedState c }
  (r.1, startedState c :: r.2)

/-- Function `handlePause` (lines 93-97). -/
def handlePause (c : Client) : Client × List TimerState :=
  let r := effects c { c with timerState := pausedState c }
  (r.1, pausedState c :: r.2)

/-- Function `handleReset` (lines 98-103): it takes no argument, sets
`timerState` to the reset literal and `displayTime` to 1500 and sends the
literal to the store. -/
def handleReset (c : Client) : Client × List TimerState :=
  let r := effects c { c with timerState := resetState, displayTime := 1500 }
  (r.1, resetState :: r.2)

/-- The interval callback (lines 62-70), run only while the interval is live:
`setDisplayTime(prev => prev > 0 ? prev - 1 : (clearInterval(...), 0))`. -/
def tick (c : Client) : Client × List TimerState :=
  if c.intervalActive then
    if c.displayTime > 0 then effects c { c with displayTime := c.displayTime - 1 }
    else effects c { c with displayTime := 0, intervalActive := false }
  else (c, [])

/-- The `postgres_changes` handler (lines 45-50); `payload` is
`payload.new.timer_state`, `none` when `payload.new` or its `timer_state` is
missing. -/
def onChange (c : Client) (payload : Option TimerState) : Client × List TimerState :=
  match payload with
  | none => (c, [])
  | some ts => effects c { c with timerState := ts, displayTime := ts.duration }

/-- The resolution of `fetchTimer` (lines 19-29); `data` is `data.timer_state`,
`none` when the read failed or the row has no `timer_state`. -/
def onFetch (c : Client) (data : Option TimerState) : Client × List TimerState :=
  match data with
  | none => (c, [])
  | some ts => effects c { c with timerState := ts, displayTime := ts.duration }

/-- The three buttons of lines 127-129. -/
inductive Button where
  | start
  | pause
  | reset
deriving DecidableEq, Repr

/-- The `disabled` attribute of each button (lines 127-129). -/
def Button.disabled (b : Button) (c : Client) : Bool :=
  match b with
  | .start => decide (c.timerState.status = .running) || decide (c.displayTime = 0)
  | .pause => decide (c.timerState.status ≠ .running)
  | .reset => false

/-- A press of a button: nothing when it is disabled, its `onPress` handler
otherwise. -/
def press (b : Button) (c : Client) : Client × List TimerState :=
  if b.disabled c then (c, [])
  else
    match b with
    | .start => handleStart c
    | .pause => handlePause c
    | .reset => handleReset c

/-- The text the screen renders is `formatTime(displayTime)` (line 125): the
remaining time read off a client is its `displayTime`; the wall clock `now` is
not an input of any expression of the screen. -/
def remaining (c : Client) (_now : Nat) : Int :=
  c.displayTime

/-- The client state after `n` interval callbacks in a row. -/
def ticks : Nat → Client → Client
  | 0, c => c
  | n + 1, c => ticks n (tick c).1

/-! Several clients and the store -/

/-- The room: the wall clock in seconds, the `timer_state` of the row, the
change notifications emitted so far (one per `update`, oldest first) and the
mounted screens. -/
structure World where
  now : Nat
  store : TimerState
  sent : List TimerState
  clients : List Client
deriving DecidableEq, Repr

/-- The room right after `handleCreateRoom` (CreateRoomScreen.js:52-57). -/
def World.created : World :=
  { now := 0, store := createdState, sent := [], clients := [] }

/-- Client `i` runs `f`; every object `f` sends overwrites the row
(`update(...).eq('id', roomId)` carries no condition on the stored value) and
is emitted as a change notification. -/
def World.act (w : World) (i : Nat) (f : Client → Client × List TimerState) : World :=
  match w.clients[i]? with
  | none => w
  | some c =>
    { w with
      clients := w.clients.set i (f c).1,
      store := ((f c).2.getLast?).getD w.store,
      sent := w.sent ++ (f c).2 }

/-- What can happen in a room. -/
inductive Event where
  /-- The wall clock advances by `s` seconds. -/
  | advance (s : Nat)
  /-- A user opens the room: a new `RoomScreen` mounts. -/
  | join
  /-- The read of `fetchTimer` of client `i` resolves with the stored row. -/
  | fetch (i : Nat)
  /-- Client `i` presses a button. -/
  | press (i : Nat) (b : Button)
  /-- The interval of client `i` fires. -/
  | tick (i : Nat)
  /-- The `k`-th change notification reaches client `i` (in any order, any
  number of times, the writer included). -/
  | deliver (i : Nat) (k : Nat)
deriving DecidableEq, Repr

/-- One event. -/
def World.step (w : World) : Event → World
  | .advance s => { w with now := w.now + s }
  | .join => { w with clients := w.clients ++ [Client.mount] }
  | .fetch i => w.act i (fun c => onFetch c (some w.store))
  | .press i b => w.act i (press b)
  | .tick i => w.act i tick
  | .deliver i k =>
    match w.sent[k]? with
    | none => w
    | some ts => w.act i (fun c => onChange c (some ts))

/-- A sequence of events, first to last. -/
def World.run (w : World) (es : List Event) : World :=
  es.foldl World.step w

/-- The rooms that can arise from a created room. -/
inductive Reachable : World → Prop where
  | created : Reachable World.created
  | step {w : World} (e : Event) : Reachable w → Reachable (w.step e)

/-- Every timer state of the room: the row, the notifications and what each
client holds. -/
def World.states (w : World) : List TimerState :=
  w.store :: (w.sent ++ w.clients.map Client.timerState)

/-- JS `a < b` on two `revision` properties: `false` when one is `undefined`. -/
def revLt (a b : Option Nat) : Bool :=
  match a, b with
  | some x, some y => decide (x < y)
  | _, _ => false

/-- JS `a <= b` on two `revision` properties: `false` when one is `undefined`. -/
def revLe (a b : Option Nat) : Bool :=
  match a, b with
  | some x, some y => decide (x ≤ y)
  | _, _ => false

/-! Predicates of the invariants -/

/-- What every timer state of a room satisfies: no `started_at`, no `revision`,
a duration that is not negative. -/
def TimerState.Ok (ts : TimerState) : Prop :=
  ts.started_at = none ∧ ts.revision = none ∧ 0 ≤ ts.duration

/-- What every client of a room satisfies: its held state is `Ok`, the
displayed value is not negative, a state that is not running has the displayed
value as its duration, and an interval is live only while the status is
running. -/
def Client.Ok (c : Client) : Prop :=
  c.timerState.Ok ∧ 0 ≤ c.displayTime ∧
    (c.timerState.status ≠ .running → c.timerState.duration = c.displayTime) ∧
    (c.intervalActive = true → c.timerState.status = .running)

/-- The invariant of a room: every state and every client is `Ok`. -/
def World.Ok (w : World) : Prop :=
  (∀ ts ∈ w.states, ts.Ok) ∧ ∀ c ∈ w.clients, c.Ok

/-- A client counting down from `d`: it displays `d`, and either its interval
is live and its status running, or `d` is 0. -/
def Counting (c : Client) (d : Int) : Prop :=
  c.displayTime = d ∧ 0 ≤ d ∧
    ((c.intervalActive = true ∧ c.timerState.status = .running) ∨ d = 0)

/-! Scenarios -/

/-- One user opens a created room, the read of `fetchTimer` resolves, and the
user presses Start at time 0 with 1500 seconds displayed. -/
def startedRoom : World :=
  World.created.run [.join, .fetch 0, .press 0 .start]

/-- For every `g` of `gaps`, the clock advances by `g` seconds and then the
interval of client 0 fires once. -/
def tickingEvents : List Nat → List Event
  | [] => []
  | g :: gs => .advance g :: .tick 0 :: tickingEvents gs

/-- The end-to-end scenario up to the Pause of B: A (client 0) and B (client 1)
open a created room, A presses Start at time 0, B receives the notification,
during 10 seconds both intervals fire once a second, and at time 10 B presses
Pause. -/
def scenarioEvents : List Event :=
  [.join, .join, .fetch 0, .fetch 1, .press 0 .start, .deliver 1 0] ++
    (List.replicate 10 [.advance 1, .tick 0, .tick 1]).flatten ++ [.press 1 .pause]

/-- The state `{ status: 'paused', duration: 1490 }` of the end-to-end
scenario. -/
def paused1490 : TimerState :=
  { status := .paused, duration := 1490, started_at := none, revision := none }

/-- A client that holds a stopped state with revision 3, as read from a row
that carries the key `revision`. -/
def heldRevision3 : Client :=
  { timerState := { status := .stopped, duration := 1500, started_at := none, revision := some 3 },
    displayTime := 1500,
    intervalActive := false }

/-- A room whose row carries revision 3, with the one client `heldRevision3`. -/
def roomRevision3 : World :=
  { now := 0, store := heldRevision3.timerState, sent := [], clients := [heldRevision3] }

/-- A late joiner: A (client 0) opens a created room, presses Start at time 0
and receives the notification of its own write; during 100 seconds its interval
fires once a second; then B (client 1) opens the room, its read resolves and
the notification of the Start reaches it too. -/
def lateJoinEvents : List Event :=
  [.join, .fetch 0, .press 0 .start, .deliver 0 0] ++ tickingEvents (List.replicate 100 1) ++
    [.join, .fetch 1, .deliver 1 0]

/-- A running timer state has a positive duration. -/
def TimerState.Live (ts : TimerState) : Prop :=
  ts.status = .running → 0 < ts.duration

/-- A client whose held state is running has a live interval and displays a
positive value. -/
def Client.Live (c : Client) : Prop :=
  c.timerState.Live ∧
    (c.timerState.status = .running → c.intervalActive = true ∧ 0 < c.displayTime)

/-- A room in which every state satisfies `Q` and every client satisfies `P`. -/
def World.Inv (Q : TimerState → Prop) (P : Client → Prop) (w : World) : Prop :=
  (∀ ts ∈ w.states, Q ts) ∧ ∀ c ∈ w.clients, P c

/-- The rooms that arise in the app. `handleCreateRoom` creates the room and
navigates to `RoomScreen` once (CreateRoomScreen.js:78); no other statement of
the repository navigates there (`handleJoinRoom`, JoinRoomScreen.js:15-48, only
records the membership), so a room has the one `RoomScreen` of its creator, and
every later event is an event other than a mount. -/
inductive AppReachable : World → Prop where
  | opened : AppReachable (World.created.step .join)
  | step {w : World} (e : Event) : e ≠ .join → AppReachable w → AppReachable (w.step e)

/-! Formatting the displayed value -/

/-- JS `s.padStart(n, fill)` for a one-character `fill`, on the list of
characters of `s`. -/
def padStart (s : List Char) (n : Nat) (fill : Char) : List Char :=
  List.replicate (n - s.length) fill ++ s

/-- Function `formatTime` (lines 114-118) on a natural number of seconds:
`Math.floor(secs / 60).toString().padStart(2, '0')`, a colon, and
`(secs % 60).toString().padStart(2, '0')`; `toString` of a natural number is
its decimal form `Nat.toDigits 10`. -/
def formatTime (secs : Nat) : String :=
  String.mk (padStart (Nat.toDigits 10 (secs / 60)) 2 '0' ++
    ':' :: padStart (Nat.toDigits 10 (secs % 60)) 2 '0')

/-- The number a field of decimal digits denotes. -/
def readDecimal (cs : List Char) : Nat :=
  cs.foldl (fun a c => 10 * a + (c.toNat - '0'.toNat)) 0

/-- The two fields of a text `m:s`: what stands before the first colon and
what stands after it. -/
def fields (s : String) : List Char × List Char :=
  (s.data.takeWhile (fun c => c != ':'), (s.data.dropWhile (fun c => c != ':')).drop 1)

end Room

/-! The join code (`src/Chrono-Tracker/src/screens/CreateRoomScreen.js`) -/

namespace CreateRoom

/-- The constant `chars` of `generateRoomCode` (line 9), as a list of
characters. -/
def chars : List Char :=
  "ABCDEFGHJKLMNPQRSTUVWXYZ23456789".toList

/-- JS `s.charAt(i)` for an integer `i`: the character at index `i`, the
empty string when `i` is out of range. -/
def charAt (s : List Char) (i : Int) : List Char :=
  if 0 ≤ i then
    match s[i.toNat]? with
    | some c => [c]
    | none => []
  else []

/-- Function `generateRoomCode` (lines 8-13). `random i` is the outcome of the
`i`-th call of `Math.random()`, a rational number (every double is one, and
the product with the length 32 of `chars` is exact); the parameter `length`
has the default 6, the value of the only call (line 50). -/
def generateRoomCode (random : Nat → ℚ) (length : Nat) : String :=
  String.mk ((List.range length).foldl
    (fun code i => code ++ charAt chars ⌊random i * (chars.length : ℚ)⌋) [])

end CreateRoom

/-! The Home screen (`src/Chrono-Tracker/src/screens/HomeScreen.js`) -/

namespace Home

/-- A planner task as the Home screen reads it. `dueDate` is the time value of
`new Date(t.dueDate)`, `none` when `t.dueDate` is missing or empty; `time` is
`t.time || ''`. -/
structure Task where
  id : Nat
  completed : Bool
  dueDate : Option Int
  time : String
deriving DecidableEq, Repr

/-- The comparator of line 93:
`new Date(a.dueDate) - new Date(b.dueDate) || a.time.localeCompare(b.time)`,
with the library function `localeCompare` as a parameter. -/
def compareTasks (localeCompare : String → String → Int) (a b : Task) : Int :=
  if a.dueDate.getD 0 - b.dueDate.getD 0 ≠ 0 then a.dueDate.getD 0 - b.dueDate.getD 0
  else localeCompare a.time b.time

/-- The list `upcoming` (lines 91-94): `filter`, `sort`, `slice(0, 3)`.
`Array.prototype.sort` is stable; for a comparator that is a total preorder
its result is the result of the stable insertion sort. -/
def upcoming (localeCompare : String → String → Int) (tasks : List Task) : List Task :=
  ((tasks.filter (fun t => !t.completed && t.dueDate.isSome)).insertionSort
    (fun a b => compareTasks localeCompare a b ≤ 0)).take 3

/-- Comparison of two strings by their characters, which `localeCompare`
agrees with on the zero-padded `HH:MM` texts the planner writes
(PlannerScreen.js:573). -/
def codeUnitCompare (a b : String) : Int :=
  if a < b then -1 else if a = b then 0 else 1

/-- Four incomplete tasks due on four different days. -/
def fourTasks : List Task :=
  [{ id := 1, completed := false, dueDate := some 4, time := "" },
   { id := 2, completed := false, dueDate := some 3, time := "" },
   { id := 3, completed := false, dueDate := some 2, time := "" },
   { id := 4, completed := false, dueDate := some 1, time := "" }]

/-- A focus session of the stored history: `date` is the number of the day
whose text `YYYY-MM-DD` is `s.date`, `duration` is `s.duration || 0`. -/
structure FocusSession where
  date : Int
  duration : Int
deriving DecidableEq, Repr

/-- The array `days` (lines 98-102): the 7 days that end today. -/
def days (today : Int) : List Int :=
  (List.range 7).map (fun i => today - (6 - (i : Int)))

/-- The sum of the durations of the sessions dated `d` (the `filter` and
`reduce` of line 103). -/
def focusOn (focusHistory : List FocusSession) (d : Int) : Int :=
  (focusHistory.filter (fun s => s.date = d)).foldl (fun sum s => sum + s.duration) 0

/-- The array `focusByDay` (line 103). -/
def focusByDay (today : Int) (focusHistory : List FocusSession) : List Int :=
  (days today).map (focusOn focusHistory)

/-- The loop of lines 105-108 with `i + 1` iterations left:
`if (focusByDay[i] > 0) streak++; else break;`. -/
def streakLoop (byDay : List Int) : Nat → Nat → Nat
  | 0, streak => streak
  | i + 1, streak => if byDay.getD i 0 > 0 then streakLoop byDay i (streak + 1) else streak

/-- The value `streak` (lines 104-108): the loop from `i = 6` down. -/
def streak (today : Int) (focusHistory : List FocusSession) : Nat :=
  streakLoop (focusByDay today focusHistory) 7 0

/-- The streak in the words of the claim: the number of consecutive days,
counting back from today, on each of which the history has at least one
session. The count cannot exceed the number of sessions. -/
def streakSpec (today : Int) (focusHistory : List FocusSession) : Nat :=
  let rec go : Nat → Nat → Nat
    | 0, k => k
    | fuel + 1, k =>
      if focusHistory.any (fun s => s.date = today - (k : Int)) then go fuel (k + 1) else k
  go focusHistory.length 0

/-- A history with one session of 25 minutes on each of the 8 days that end on
day `today`. -/
def eightDays (today : Int) : List FocusSession :=
  (List.range 8).map (fun k => { date := today - (k : Int), duration := 25 })

end Home

/-! Task reminders (`src/src/screens/PlannerScreen.js`) -/

namespace Planner

/-- The milliseconds of a day. -/
def dayMs : Int := 86400000

/-- The time value of `new Date(dueDate)` for the text `YYYY-MM-DD` of day
number `dueDay` (days since 1970-01-01), which is what the planner stores as
`dueDate` (lines 182 and 259): a date-only text is read as midnight UTC. -/
def newDate (dueDay : Int) : Int :=
  dueDay * dayMs

/-- JS `date.setHours(h, m, 0, 0)` on the time value `t`, in a time zone
`offset` milliseconds east of UTC (no daylight saving): the local calendar day
of `t` is kept and the local time of day becomes `h:m:00.000`. -/
def setHours (offset : Int) (t : Int) (h m : Nat) : Int :=
  (t + offset) / dayMs * dayMs + ((h : Int) * 60 + (m : Int)) * 60000 - offset

/-- Function `getTaskNotificationDate` (lines 75-86). `now` is the time value
of `new Date()`; `time` is `none` for the empty text and `some (h, m)` for a
text `h:m` of two decimal numbers, the form line 573 writes; the result `none`
is `null`. -/
def getTaskNotificationDate (offset now : Int) (dueDate : Int) (time : Option (Nat × Nat)) :
    Option Int :=
  let date :=
    match time with
    | some (h, m) => setHours offset (newDate dueDate) h m
    | none => setHours offset (newDate dueDate) 9 0
  if date < now then none else some date

/-- The instant of the claim: on the local calendar day `dueDay`, at `h:m`
local time, in a time zone `offset` milliseconds east of UTC. -/
def instantOnDueDate (offset : Int) (dueDay : Int) (h m : Nat) : Int :=
  dueDay * dayMs - offset + ((h : Int) * 60 + (m : Int)) * 60000

end Planner

/-! The focus timer (`src/Chrono-Tracker/src/screens/TimerScreen.js`) -/

namespace Timer

/-- The entries of `MODES` (line 61). -/
inductive Mode where
  | pomodoro
  | stopwatch
  | countdown
  | multiTimer
deriving DecidableEq, Repr

/-- The React state of `TimerScreen` (lines 154-188) that the timer effect and
the handlers below read or write; the quote, the snackbar, the fire state and
the animations are left out. Durations in minutes and `remaining` are rational
numbers (`Number(customFocus)` may have a fraction); the second counters are
integers. -/
structure State where
  mode : Mode
  focusDuration : ℚ
  breakDuration : ℚ
  customFocus : String
  customBreak : String
  showCustomFocus : Bool
  showCustomBreak : Bool
  isRunning : Bool
  isBreak : Bool
  remaining : ℚ
  session : Nat
  stopwatchTime : Int
  countdownTime : Int
  customCountdown : String
  showCustomCountdown : Bool
  focusMenuVisible : Bool
  skipCount : Nat

/-- The initial values of the `useState` calls (lines 154-188). -/
def State.initial : State :=
  { mode := .pomodoro, focusDuration := 25, breakDuration := 5, customFocus := "",
    customBreak := "", showCustomFocus := false, showCustomBreak := false, isRunning := false,
    isBreak := false, remaining := 25 * 60, session := 1, stopwatchTime := 0,
    countdownTime := 60, customCountdown := "", showCustomCountdown := false,
    focusMenuVisible := false, skipCount := 0 }

/-- The constant `MAX_FREE_SKIPS` (line 189). -/
def MAX_FREE_SKIPS : Nat := 2

/-- One callback of the interval that the timer effect (lines 214-226) keeps
while `isRunning`: in Pomodoro mode with `remaining > 0` it decrements
`remaining`, in Stopwatch mode it increments `stopwatchTime`, in Countdown mode
with `countdownTime > 0` it decrements `countdownTime`; otherwise no interval
is set. -/
def tick (s : State) : State :=
  if s.isRunning then
    if s.mode = .pomodoro ∧ s.remaining > 0 then { s with remaining := s.remaining - 1 }
    else if s.mode = .stopwatch then { s with stopwatchTime := s.stopwatchTime + 1 }
    else if s.mode = .countdown ∧ s.countdownTime > 0 then
      { s with countdownTime := s.countdownTime - 1 }
    else s
  else s

/-- The state after `n` callbacks of the interval. -/
def ticks : Nat → State → State
  | 0, s => s
  | n + 1, s => ticks n (tick s)

/-- The `onPress` of a mode menu item (line 464), without the menu flag. -/
def setMode (m : Mode) (s : State) : State :=
  { s with mode := m }

/-- The `onPress` of the duration menu item `min` (lines 500-505), for a
numeric item (15, 25, 45 or 90). -/
def selectDuration (min : Int) (s : State) : State :=
  if s.mode = .countdown then { s with focusMenuVisible := false, countdownTime := min * 60 }
  else { s with focusMenuVisible := false, focusDuration := min }

/-- Function `handleStart` (lines 264-267). -/
def handleStart (s : State) : State :=
  { s with isRunning := true }

/-- Function `handleReset` (lines 272-282); in Countdown mode it calls
`setCountdownTime(countdownTime)` with the current value of the state. -/
def handleReset (s : State) : State :=
  let s1 : State :=
    { s with isRunning := false, isBreak := false, session := 1,
             remaining := s.focusDuration * 60, stopwatchTime := 0 }
  if s.mode = .countdown then { s1 with countdownTime := s.countdownTime } else s1

/-- The calls to the rewarded ad that `handleSkipBreak` can make. -/
inductive AdCall where
  | request
  | show
deriving DecidableEq, Repr

/-- The outcome of the rewarded ad: whether `requestAdAsync` and
`showAdAsync` resolve (`true`) or reject (`false`). -/
structure Ad where
  requestOk : Bool
  showOk : Bool
deriving DecidableEq, Repr

/-- The state changes of a skipped break (lines 321-323 and 331-333). -/
def skipBreak (s : State) : State :=
  { s with skipCount := s.skipCount + 1, isBreak := false, remaining := s.focusDuration * 60 }

/-- Function `handleSkipBreak` (lines 319-339): the new state and the ad calls
made. A rejected `await` jumps to the `catch`, which changes nothing. -/
def handleSkipBreak (ad : Ad) (s : State) : State × List AdCall :=
  if s.skipCount < MAX_FREE_SKIPS then (skipBreak s, [])
  else if ad.requestOk then
    if ad.showOk then (skipBreak s, [.request, .show]) else (s, [.request, .show])
  else (s, [.request])

/-- JS `x < b` and `x > b` for a string `x` whose `Number(x)` is `n`, `none`
standing for `NaN` (and for the infinite values, which the handlers below treat
like `NaN`): a comparison with `NaN` is false. -/
def numLt (n : Option ℚ) (b : ℚ) : Bool :=
  match n with
  | some x => decide (x < b)
  | none => false

/-- See `numLt`. -/
def numGt (n : Option ℚ) (b : ℚ) : Bool :=
  match n with
  | some x => decide (x > b)
  | none => false

/-- Function `handleCustomFocus` (lines 349-354), with the library conversion
`Number` of a string as the parameter `toNumber`. -/
def handleCustomFocus (toNumber : String → Option ℚ) (s : State) : State :=
  if s.customFocus = "" ∨ (toNumber s.customFocus).isNone = true ∨
      numLt (toNumber s.customFocus) 1 = true ∨ numGt (toNumber s.customFocus) 300 = true then s
  else
    { s with focusDuration := (toNumber s.customFocus).getD 0, showCustomFocus := false,
             customFocus := "" }

/-- Function `handleCustomBreak` (lines 355-360). -/
def handleCustomBreak (toNumber : String → Option ℚ) (s : State) : State :=
  if s.customBreak = "" ∨ (toNumber s.customBreak).isNone = true ∨
      numLt (toNumber s.customBreak) 1 = true ∨ numGt (toNumber s.customBreak) 300 = true then s
  else
    { s with breakDuration := (toNumber s.customBreak).getD 0, showCustomBreak := false,
             customBreak := "" }

/-- The code points of `StrWhiteSpaceChar`, the white space that `parseInt`
skips: the `WhiteSpace` characters (tab, vertical tab, form feed, space,
no-break space, the other space separators, U+FEFF) and the line terminators
(line feed, carriage return, U+2028, U+2029). -/
def strWhiteSpace : List Nat :=
  [0x9, 0xA, 0xB, 0xC, 0xD, 0x20, 0xA0, 0x1680, 0x2000, 0x2001, 0x2002, 0x2003, 0x2004, 0x2005,
   0x2006, 0x2007, 0x2008, 0x2009, 0x200A, 0x2028, 0x2029, 0x202F, 0x205F, 0x3000, 0xFEFF]

/-- Whether `c` is a `StrWhiteSpaceChar`. -/
def isStrWhiteSpace (c : Char) : Bool :=
  strWhiteSpace.contains c.toNat

/-- How many low bits a natural number has beyond the 53 bits of the
significand of a double. -/
def shiftBits : Nat → Nat → Nat
  | 0, _ => 0
  | fuel + 1, n => if n < 2 ^ 53 then 0 else 1 + shiftBits fuel (n / 2)

/-- The double nearest to the natural number `n` (ties to the even
significand), for `n` below `2 ^ 1024`; it is `n` itself below `2 ^ 53`. -/
def roundNat (n : Nat) : Nat :=
  if 2 * (n % 2 ^ shiftBits 1024 n) > 2 ^ shiftBits 1024 n ∨
      (2 * (n % 2 ^ shiftBits 1024 n) = 2 ^ shiftBits 1024 n ∧
        (n / 2 ^ shiftBits 1024 n) % 2 = 1) then
    (n / 2 ^ shiftBits 1024 n + 1) * 2 ^ shiftBits 1024 n
  else n / 2 ^ shiftBits 1024 n * 2 ^ shiftBits 1024 n

/-- The Number value of the integer `z`: the nearest double. -/
def toDouble (z : Int) : Int :=
  if z < 0 then -(roundNat z.natAbs : Int) else (roundNat z.natAbs : Int)

/-- The result of `parseInt(s, 10)`: `NaN`, the Number value of the integer
read, or `beyond` for an integer of more than 20 significant digits, where the
language lets the implementation replace the digits after the 20th by 0 and
the result is not modelled. -/
inductive Parsed where
  | nan
  | num (z : Int)
  | beyond
deriving DecidableEq, Repr

/-- JS `parseInt(s, 10)` on the characters of `s`: leading white space is
skipped, a sign is read, and the longest run of decimal digits that follows is
the integer read; without a digit there the result is `NaN`. -/
def parseInt (s : List Char) : Parsed :=
  let t := s.dropWhile isStrWhiteSpace
  let neg := decide (t.head? = some '-')
  let u := if t.head? = some '-' ∨ t.head? = some '+' then t.tail else t
  let ds := u.takeWhile Char.isDigit
  if ds = [] then .nan
  else if Room.readDecimal ds < 10 ^ 20 then
    .num (toDouble (if neg then -(Room.readDecimal ds : Int) else (Room.readDecimal ds : Int)))
  else .beyond

/-- JS `x || 0` for a result `x` of `parseInt`: `NaN` and 0 give 0; `none`
when `x` is not modelled. -/
def Parsed.orZero : Parsed → Option Int
  | .nan => some 0
  | .num z => some z
  | .beyond => none

/-- JS `s.split(':')` on the characters of `s`. -/
def splitColon : List Char → List (List Char)
  | [] => [[]]
  | c :: cs =>
    if c = ':' then [] :: splitColon cs
    else
      match splitColon cs with
      | [] => [[c]]
      | f :: fs => (c :: f) :: fs

/-- The `onPress` of the Set button of the custom countdown modal (lines
673-686); a field that `split` does not return is `undefined`, for which
`parseInt` gives `NaN`. The product and the sum are Number operations, each
rounded to the nearest double. The result is `none` when a field has more than
20 significant digits, where `parseInt` is not modelled. -/
def handleCustomCountdown (s : State) : Option State :=
  let min : Parsed :=
    if ':' ∈ s.customCountdown.data then
      match (splitColon s.customCountdown.data).get? 0 with
      | some f => parseInt f
      | none => .nan
    else parseInt s.customCountdown.data
  let sec : Parsed :=
    if ':' ∈ s.customCountdown.data then
      match (splitColon s.customCountdown.data).get? 1 with
      | some f => parseInt f
      | none => .nan
    else .num 0
  min.orZero.bind fun m =>
    sec.orZero.map fun x =>
      { s with countdownTime := toDouble (toDouble (m * 60) + x), showCustomCountdown := false,
               customCountdown := "" }

/-- The conversion `Number` on the texts that consist of decimal digits only;
every other text is `NaN` here. -/
def decimalNumber (s : String) : Option ℚ :=
  if s.data ≠ [] ∧ s.data.all Char.isDigit = true then some (Room.readDecimal s.data : ℚ) else none

end Timer

/-! The week of the analysis (`src/src/screens/AnalysisScreen.js`) -/

namespace Analysis

/-- The milliseconds of a day. -/
def dayMs : Int := 86400000

/-- The time value of `new Date(date)` for the text `YYYY-MM-DD` of day number
`day` (days since 1970-01-01): a date-only text is read as midnight UTC. Every
caller passes such a text (lines 115, 155 and 289, from `getTodayString`). -/
def newDate (day : Int) : Int :=
  day * dayMs

/-- The local calendar day (days since 1970-01-01) of the time value `t`, in a
time zone that is `offset` milliseconds east of UTC at `t`. -/
def localDay (offset : Int) (t : Int) : Int :=
  (t + offset) / dayMs

/-- JS `d.getDay()` for a `Date` whose local calendar day is `day`: 0 is
Sunday, 6 is Saturday; day 0 (1970-01-01) was a Thursday. -/
def getDay (day : Int) : Int :=
  (day + 4) % 7

/-- Function `getWeekRange` (lines 52-62) for the date-only text of day number
`date`, in a zone `offset` milliseconds east of UTC at midnight UTC of that
day. The result is the pair of the local calendar days of `monday` and
`sunday`: `x.setDate(d.getDate() + k)` moves the local calendar day by `k`
(under any daylight-saving rule) and only the calendar days are modelled, not
the time of day. -/
def getWeekRange (offset : Int) (date : Int) : Int × Int :=
  let d := localDay offset (newDate date)
  let day := getDay d
  let diffToMonday := (day + 6) % 7
  let monday := d - diffToMonday
  let sunday := monday + 6
  (monday, sunday)

end Analysis

namespace Room

/-! The effects -/

theorem effects_displayTime (prev next : Client) :
    (effects prev next).1.displayTime = next.displayTime := by
  unfold effects countdownEffect
  split_ifs <;> rfl

theorem effects_of_same_display (prev next : Client)
    (h : next.displayTime = prev.displayTime) :
    effects prev next = (countdownEffect prev next, []) := by
  simp [effects, pauseAtZero, h]

theorem effects_of_nonzero (prev next : Client) (h : next.displayTime ≠ 0) :
    effects prev next = (countdownEffect prev next, []) := by
  simp [effects, pauseAtZero, h]

theorem effects_of_not_running (prev next : Client) (h : next.timerState.status ≠ .running) :
    effects prev next = (countdownEffect prev next, []) := by
  simp [effects, pauseAtZero, h]

theorem effects_ok (prev next : Client) (hts : next.timerState.Ok)
    (hd : 0 ≤ next.displayTime)
    (heq : next.timerState.status ≠ .running → next.timerState.duration = next.displayTime)
    (hiv : next.timerState.status = prev.timerState.status →
      next.intervalActive = true → next.timerState.status = .running) :
    (effects prev next).1.Ok ∧ ∀ ts ∈ (effects prev next).2, ts.Ok := by
  obtain ⟨h1, h2, h3⟩ := hts
  unfold effects countdownEffect pauseAtZero
  split_ifs with ha hb hb
  · simp_all [Client.Ok, TimerState.Ok, pausedState]
  · simp_all [Client.Ok, TimerState.Ok, pausedState]
  · simp_all [Client.Ok, TimerState.Ok, pausedState]
  · simp_all [Client.Ok, TimerState.Ok, pausedState]

theorem handleStart_eq (c : Client) :
    handleStart c = (countdownEffect c { c with timerState := startedState c }, [startedState c]) := by
  simp [handleStart, effects_of_same_display]

theorem handlePause_eq (c : Client) :
    handlePause c = (countdownEffect c { c with timerState := pausedState c }, [pausedState c]) := by
  simp [handlePause, effects_of_same_display]

theorem handleReset_eq (c : Client) :
    handleReset c =
      (countdownEffect c { c with timerState := resetState, displayTime := 1500 }, [resetState]) := by
  simp [handleReset, effects_of_nonzero]

theorem onChange_ok (c : Client) (ts : TimerState) (hc : c.Ok) (hts : ts.Ok) :
    (onChange c (some ts)).1.Ok ∧ ∀ x ∈ (onChange c (some ts)).2, x.Ok := by
  apply effects_ok
  · exact hts
  · exact hts.2.2
  · intro _; rfl
  · intro h1 h2
    exact h1 ▸ hc.2.2.2 h2

theorem handleStart_ok (c : Client) (hc : c.Ok) :
    (handleStart c).1.Ok ∧ ∀ x ∈ (handleStart c).2, x.Ok := by
  obtain ⟨⟨h1, h2, _⟩, h4, _, _⟩ := hc
  have hs : (startedState c).Ok := ⟨h1, h2, h4⟩
  rw [handleStart_eq]
  refine ⟨?_, by simpa using hs⟩
  unfold countdownEffect
  split_ifs with h
  · exact ⟨hs, h4, fun hn => absurd rfl hn, fun _ => rfl⟩
  · exact ⟨hs, h4, fun hn => absurd rfl hn, fun _ => rfl⟩

theorem handlePause_ok (c : Client) (hc : c.Ok) :
    (handlePause c).1.Ok ∧ ∀ x ∈ (handlePause c).2, x.Ok := by
  obtain ⟨⟨h1, h2, _⟩, h4, _, h6⟩ := hc
  have hs : (pausedState c).Ok := ⟨h1, h2, h4⟩
  rw [handlePause_eq]
  refine ⟨?_, by simpa using hs⟩
  unfold countdownEffect
  split_ifs with h
  · refine ⟨hs, h4, fun _ => rfl, fun hi => ?_⟩
    have h7 : Status.paused = c.timerState.status := h
    rw [← h7] at h6
    exact h6 hi
  · refine ⟨hs, h4, fun _ => rfl, fun hi => ?_⟩
    simp [pausedState] at hi

theorem handleReset_ok (c : Client) (hc : c.Ok) :
    (handleReset c).1.Ok ∧ ∀ x ∈ (handleReset c).2, x.Ok := by
  obtain ⟨_, _, _, h6⟩ := hc
  have hs : resetState.Ok := ⟨rfl, rfl, by decide⟩
  have h0 : (0 : Int) ≤ 1500 := by decide
  rw [handleReset_eq]
  refine ⟨?_, by simpa using hs⟩
  unfold countdownEffect
  split_ifs with h
  · refine ⟨hs, h0, fun _ => rfl, fun hi => ?_⟩
    have h7 : Status.stopped = c.timerState.status := h
    rw [← h7] at h6
    exact h6 hi
  · refine ⟨hs, h0, fun _ => rfl, fun hi => ?_⟩
    simp [resetState] at hi

theorem press_ok (b : Button) (c : Client) (hc : c.Ok) :
    (press b c).1.Ok ∧ ∀ x ∈ (press b c).2, x.Ok := by
  unfold press
  split_ifs
  · simpa using hc
  · cases b
    · exact handleStart_ok c hc
    · exact handlePause_ok c hc
    · exact handleReset_ok c hc

theorem tick_ok (c : Client) (hc : c.Ok) :
    (tick c).1.Ok ∧ ∀ x ∈ (tick c).2, x.Ok := by
  unfold tick
  split_ifs with h1 h2
  · apply effects_ok
    · exact hc.1
    · simp only; omega
    · intro h; exact absurd (hc.2.2.2 h1) h
    · intro _ _; exact hc.2.2.2 h1
  · apply effects_ok
    · exact hc.1
    · simp
    · intro h; exact absurd (hc.2.2.2 h1) h
    · intro _ h; simp at h
  · simpa using hc

/-! Rooms -/

theorem World.act_of_none (w : World) (i : Nat) (f : Client → Client × List TimerState)
    (h : w.clients[i]? = none) : w.act i f = w := by
  simp [World.act, h]

theorem World.act_of_some (w : World) (i : Nat) (f : Client → Client × List TimerState)
    (c : Client) (h : w.clients[i]? = some c) :
    w.act i f =
      { w with
        clients := w.clients.set i (f c).1,
        store := ((f c).2.getLast?).getD w.store,
        sent := w.sent ++ (f c).2 } := by
  simp [World.act, h]

theorem World.act_client (w : World) (i : Nat) (f : Client → Client × List TimerState)
    (c : Client) (h : w.clients[i]? = some c) :
    (w.act i f).clients[i]? = some (f c).1 := by
  rw [World.act_of_some w i f c h]
  have hi : i < w.clients.length := by
    by_contra hn
    rw [List.getElem?_eq_none (by omega)] at h
    exact Option.noConfusion h
  simp [List.getElem?_set_self hi]

theorem World.act_now (w : World) (i : Nat) (f : Client → Client × List TimerState) :
    (w.act i f).now = w.now := by
  unfold World.act
  split <;> rfl

theorem getLast_getD_ok (l : List TimerState) (d : TimerState) (hd : d.Ok)
    (hl : ∀ x ∈ l, x.Ok) : (l.getLast?.getD d).Ok := by
  cases h : l.getLast? with
  | none => simpa using hd
  | some a => simpa using hl a (List.mem_of_getLast?_eq_some h)

theorem World.act_ok (w : World) (i : Nat) (f : Client → Client × List TimerState)
    (hw : w.Ok) (hf : ∀ c, c.Ok → (f c).1.Ok ∧ ∀ x ∈ (f c).2, x.Ok) : (w.act i f).Ok := by
  cases h : w.clients[i]? with
  | none => rw [World.act_of_none w i f h]; exact hw
  | some c =>
    rw [World.act_of_some w i f c h]
    obtain ⟨hs, hc⟩ := hw
    have hcok : c.Ok := hc c (List.getElem?_mem h)
    obtain ⟨h1, h2⟩ := hf c hcok
    have hstore : w.store.Ok := hs w.store (by simp [World.states])
    refine ⟨?_, ?_⟩
    · intro ts hts
      simp only [World.states, List.mem_cons, List.mem_append, List.mem_map] at hts
      rcases hts with rfl | (hts | hts) | ⟨c', hc', rfl⟩
      · exact getLast_getD_ok _ _ hstore h2
      · exact hs ts (by simp [World.states, hts])
      · exact h2 ts hts
      · rcases List.mem_or_eq_of_mem_set hc' with hm | rfl
        · exact (hc c' hm).1
        · exact h1.1
    · intro c' hc'
      rcases List.mem_or_eq_of_mem_set hc' with hm | rfl
      · exact hc c' hm
      · exact h1

theorem Client.mount_ok : Client.mount.Ok := by
  refine ⟨⟨rfl, rfl, by decide⟩, by decide, fun _ => rfl, fun h => ?_⟩
  simp [Client.mount] at h

theorem World.created_ok : World.created.Ok := by
  refine ⟨?_, ?_⟩
  · intro ts hts
    simp only [World.states, World.created, List.map_nil, List.append_nil, List.mem_cons,
      List.not_mem_nil, or_false] at hts
    subst hts
    exact ⟨rfl, rfl, by decide⟩
  · intro c hc
    simp [World.created] at hc

theorem World.step_ok (w : World) (e : Event) (hw : w.Ok) : (w.step e).Ok := by
  cases e with
  | advance s => exact hw
  | join =>
    refine ⟨?_, ?_⟩
    · intro ts hts
      simp only [World.step, World.states, List.map_append, List.map_cons, List.map_nil,
        List.mem_cons, List.mem_append, List.not_mem_nil, or_false] at hts
      rcases hts with rfl | hts | hts | rfl
      · exact hw.1 _ (by simp [World.states])
      · exact hw.1 _ (by simp [World.states, hts])
      · exact hw.1 _ (by simp only [World.states, List.mem_cons, List.mem_append]; exact Or.inr (Or.inr hts))
      · exact Client.mount_ok.1
    · intro c hc
      simp only [World.step, List.mem_append, List.mem_singleton] at hc
      rcases hc with hc | rfl
      · exact hw.2 c hc
      · exact Client.mount_ok
  | fetch i =>
    have hstore : w.store.Ok := hw.1 w.store (by simp [World.states])
    exact World.act_ok w i _ hw (fun c hc => onChange_ok c w.store hc hstore)
  | press i b => exact World.act_ok w i _ hw (fun c hc => press_ok b c hc)
  | tick i => exact World.act_ok w i _ hw (fun c hc => tick_ok c hc)
  | deliver i k =>
    simp only [World.step]
    cases h : w.sent[k]? with
    | none => exact hw
    | some ts =>
      have hts : ts.Ok := hw.1 ts (by simp [World.states, List.getElem?_mem h])
      exact World.act_ok w i _ hw (fun c hc => onChange_ok c ts hc hts)

theorem reachable_ok {w : World} (h : Reachable w) : w.Ok := by
  induction h with
  | created => exact World.created_ok
  | step e _ ih => exact World.step_ok _ e ih

theorem reachable_run {w : World} (h : Reachable w) (es : List Event) : Reachable (w.run es) := by
  induction es generalizing w with
  | nil => exact h
  | cons e es ih => exact ih (Reachable.step e h)

/-! Counting down -/

theorem countdownEffect_displayTime (prev next : Client) :
    (countdownEffect prev next).displayTime = next.displayTime := by
  unfold countdownEffect
  split_ifs <;> rfl

theorem countdownEffect_timerState (prev next : Client) :
    (countdownEffect prev next).timerState = next.timerState := by
  unfold countdownEffect
  split_ifs <;> rfl

theorem tick_of_inactive (c : Client) (h : c.intervalActive = false) : tick c = (c, []) := by
  simp [tick, h]

theorem ticks_of_inactive (n : Nat) (c : Client) (h : c.intervalActive = false) :
    ticks n c = c := by
  induction n with
  | zero => rfl
  | succ n ih => simp [ticks, tick_of_inactive c h, ih]

theorem tick_counting (c : Client) (d : Int) (h : Counting c d) :
    Counting (tick c).1 (max 0 (d - 1)) := by
  obtain ⟨hd, h0, h⟩ := h
  by_cases ha : c.intervalActive = true
  · by_cases hp : c.displayTime > 0
    · have hr : c.timerState.status = .running := by
        rcases h with ⟨_, hr⟩ | hz
        · exact hr
        · omega
      have ht : tick c = effects c { c with displayTime := c.displayTime - 1 } := by
        simp [tick, ha, hp]
      rw [ht]
      by_cases h1 : c.displayTime = 1
      · have hz : pauseAtZero c { c with displayTime := c.displayTime - 1 } = true := by
          simp [pauseAtZero, h1, hr]
        simp only [effects, hz, if_true]
        refine ⟨?_, le_max_left _ _, Or.inr ?_⟩
        · show (countdownEffect c _).displayTime = max 0 (d - 1)
          rw [countdownEffect_displayTime]
          show c.displayTime - 1 = max 0 (d - 1)
          omega
        · omega
      · have hz : pauseAtZero c { c with displayTime := c.displayTime - 1 } = false := by
          simp only [pauseAtZero, Bool.and_eq_false_imp, Bool.and_eq_true, decide_eq_true_eq,
            decide_eq_false_iff_not]
          omega
        simp only [effects, hz, countdownEffect, if_true, Bool.false_eq_true, if_false]
        refine ⟨?_, le_max_left _ _, Or.inl ⟨ha, hr⟩⟩
        show c.displayTime - 1 = max 0 (d - 1)
        omega
    · have hd0 : c.displayTime = 0 := by omega
      have ht : tick c = effects c { c with displayTime := 0, intervalActive := false } := by
        simp [tick, ha, hp]
      rw [ht, effects_of_same_display _ _ (by simp [hd0])]
      simp only [countdownEffect, if_true]
      refine ⟨?_, le_max_left _ _, Or.inr ?_⟩
      · show (0 : Int) = max 0 (d - 1)
        omega
      · omega
  · have hf : c.intervalActive = false := by simpa using ha
    rw [tick_of_inactive c hf]
    have hz : d = 0 := by
      rcases h with ⟨hx, _⟩ | hz
      · exact absurd hx ha
      · exact hz
    refine ⟨?_, le_max_left _ _, Or.inr ?_⟩
    · show c.displayTime = max 0 (d - 1)
      omega
    · omega

theorem ticks_counting (n : Nat) (c : Client) (d : Int) (h : Counting c d) :
    Counting (ticks n c) (max 0 (d - n)) := by
  induction n generalizing c d with
  | zero =>
    have : max 0 (d - (0 : Nat)) = d := by
      have := h.2.1
      simp only [Nat.cast_zero, sub_zero]
      omega
    rw [this]; exact h
  | succ n ih =>
    have h1 := ih (tick c).1 _ (tick_counting c d h)
    have : max 0 (max 0 (d - 1) - (n : Int)) = max 0 (d - ((n + 1 : Nat) : Int)) := by
      push_cast
      omega
    rw [← this]
    exact h1

theorem set_of_getElem_some {α : Type} (l : List α) (i : Nat) (a : α) (h : l[i]? = some a) :
    l.set i a = l := by
  induction l generalizing i with
  | nil => rfl
  | cons x xs ih =>
    cases i with
    | zero =>
      simp only [List.getElem?_cons_zero, Option.some.injEq] at h
      simp [h]
    | succ j =>
      simp only [List.getElem?_cons_succ] at h
      simp [ih j h]

theorem World.act_noop (w : World) (i : Nat) (f : Client → Client × List TimerState)
    (h : ∀ c, w.clients[i]? = some c → f c = (c, [])) : w.act i f = w := by
  cases hc : w.clients[i]? with
  | none => exact World.act_of_none w i f hc
  | some c =>
    rw [World.act_of_some w i f c hc, h c hc]
    cases w with
    | mk now store sent clients =>
      simp only [List.getLast?_nil, Option.getD_none, List.append_nil, World.mk.injEq,
        true_and]
      exact set_of_getElem_some clients i c hc

theorem World.run_idle_ticks (w : World) (i : Nat) (c : Client) (n : Nat)
    (hc : w.clients[i]? = some c) (hi : c.intervalActive = false) :
    w.run (List.replicate n (.tick i)) = w := by
  induction n with
  | zero => rfl
  | succ n ih =>
    have h1 : w.step (.tick i) = w := by
      apply World.act_noop
      intro c' hc'
      rw [hc] at hc'
      cases hc'
      exact tick_of_inactive c hi
    simp only [World.run, List.replicate_succ, List.foldl_cons, h1]
    exact ih

theorem World.run_ticking (gaps : List Nat) (w : World) (c : Client) (d : Int)
    (hc : w.clients[0]? = some c) (hd : Counting c d) :
    (w.run (tickingEvents gaps)).now = w.now + gaps.sum ∧
      ∃ c', (w.run (tickingEvents gaps)).clients[0]? = some c' ∧
        Counting c' (max 0 (d - (gaps.length : Int))) := by
  induction gaps generalizing w c d with
  | nil =>
    refine ⟨by simp [tickingEvents, World.run], c, by simpa [tickingEvents, World.run] using hc, ?_⟩
    have : max 0 (d - (([] : List Nat).length : Int)) = d := by
      have := hd.2.1
      simp only [List.length_nil, Nat.cast_zero, sub_zero]
      omega
    rw [this]; exact hd
  | cons g gs ih =>
    have hc1 : ((w.step (.advance g)).step (.tick 0)).clients[0]? = some (tick c).1 :=
      World.act_client (w.step (.advance g)) 0 tick c hc
    have hn1 : ((w.step (.advance g)).step (.tick 0)).now = w.now + g :=
      World.act_now (w.step (.advance g)) 0 tick
    obtain ⟨h1, c', h2, h3⟩ := ih _ (tick c).1 _ hc1 (tick_counting c d hd)
    have hrun : w.run (tickingEvents (g :: gs)) =
        ((w.step (.advance g)).step (.tick 0)).run (tickingEvents gs) := rfl
    rw [hrun]
    refine ⟨?_, c', h2, ?_⟩
    · rw [h1, hn1, List.sum_cons]; omega
    · have : max 0 (max 0 (d - 1) - (gs.length : Int)) =
          max 0 (d - (((g :: gs).length : Nat) : Int)) := by
        simp only [List.length_cons]
        push_cast
        omega
      rw [← this]
      exact h3

/-- C1, as the code has it: after Start with 1500 seconds displayed at time 0,
for every alternation of clock advances and interval callbacks, with no timer
state delivered and no button pressed in between, the remaining time read is
`max 0 (1500 - n)` with `n` the number of callbacks that fired, whatever the
clock reads: it is 1100 exactly when 400 callbacks fired. -/
theorem drift_follows_ticks (gaps : List Nat) (s : Nat) :
    ((startedRoom.run (tickingEvents gaps)).step (.advance s)).now = gaps.sum + s ∧
      ∃ c, ((startedRoom.run (tickingEvents gaps)).step (.advance s)).clients[0]? = some c ∧
        remaining c (gaps.sum + s) = max 0 (1500 - (gaps.length : Int)) := by
  have hc : startedRoom.clients[0]? = some
      { timerState := { status := .running, duration := 1500, started_at := none, revision := none },
        displayTime := 1500, intervalActive := true } := by decide
  obtain ⟨h1, c', h2, h3⟩ := World.run_ticking gaps startedRoom _ 1500 hc
    ⟨rfl, by decide, Or.inl ⟨rfl, rfl⟩⟩
  refine ⟨?_, c', h2, h3.1⟩
  show (startedRoom.run (tickingEvents gaps)).now + s = gaps.sum + s
  rw [h1]
  have : startedRoom.now = 0 := by decide
  omega

/-- C1 as stated fails: with the clock advanced by 400 seconds and no interval
callback fired, the remaining time read is 1500, not 1100. -/
theorem drift_counterexample :
    ¬ ∀ (gaps : List Nat) (s : Nat), gaps.sum + s = 400 →
      ∀ c, ((startedRoom.run (tickingEvents gaps)).step (.advance s)).clients[0]? = some c →
        remaining c (gaps.sum + s) = 1100 := by
  intro h
  have h1 := h [] 400 rfl
    { timerState := { status := .running, duration := 1500, started_at := none, revision := none },
      displayTime := 1500, intervalActive := true } (by decide)
  revert h1
  decide

/-- C2: in the end-to-end scenario (room created stopped with 1500, A starts at
time 0, B receives the notification and its interval fires once a second, B
pauses at time 10), B displays 1500 and is running when the notification has
arrived, the state B writes is paused with duration 1490, and once A has
received that notification A holds the paused state, displays 1490 and keeps
displaying it after any number `n` of later interval periods. -/
theorem end_to_end_scenario (n : Nat) :
    World.created.store = createdState ∧
      (World.created.run [.join, .join, .fetch 0, .fetch 1, .press 0 .start,
          .deliver 1 0]).clients[1]? =
        some { timerState := { createdState with status := .running }, displayTime := 1500,
               intervalActive := true } ∧
      (World.created.run scenarioEvents).now = 10 ∧
      (World.created.run scenarioEvents).store = paused1490 ∧
      (World.created.run scenarioEvents).sent[1]? = some paused1490 ∧
      (((World.created.run scenarioEvents).step (.deliver 0 1)).run
          (List.replicate n (.tick 0))).clients[0]? =
        some { timerState := paused1490, displayTime := 1490, intervalActive := false } := by
  refine ⟨rfl, by decide, by decide, by decide, by decide, ?_⟩
  have h : ((World.created.run scenarioEvents).step (.deliver 0 1)).clients[0]? =
      some { timerState := paused1490, displayTime := 1490, intervalActive := false } := by
    decide
  rw [World.run_idle_ticks _ 0 _ n h rfl]
  exact h

theorem ticks_ok (n : Nat) (c : Client) (hc : c.Ok) : (ticks n c).Ok := by
  induction n generalizing c with
  | zero => exact hc
  | succ n ih => exact ih _ (tick_ok c hc).1

theorem reachable_client_ok {w : World} (hw : Reachable w) {i : Nat} {c : Client}
    (hc : w.clients[i]? = some c) : c.Ok :=
  (reachable_ok hw).2 c (List.getElem?_mem hc)

theorem handleStart_of_not_running (c : Client) (hs : c.timerState.status ≠ .running) :
    handleStart c =
      ({ c with timerState := startedState c, intervalActive := true }, [startedState c]) := by
  rw [handleStart_eq]
  have : ¬ (Status.running = c.timerState.status) := fun h => hs h.symm
  simp [countdownEffect, startedState, this]

/-- C4, as the code has it: for every client state of a reachable room whose
status is not running and that displays `d`, after Start and `e` callbacks of
the 1 Hz interval (no timer state delivered in between), Pause makes the held
state, and writes, the state with status paused, duration `max 0 (d - e)` and
no `started_at`: the duration written is the displayed value, which counts
interval callbacks and not clock seconds. -/
theorem pause_writes_displayed (w : World) (hw : Reachable w) (i : Nat) (c : Client)
    (hc : w.clients[i]? = some c) (hs : c.timerState.status ≠ .running) (e : Nat) :
    (handlePause (ticks e (handleStart c).1)).1.timerState =
        { status := .paused, duration := max 0 (c.displayTime - (e : Int)),
          started_at := none, revision := none } ∧
      (handlePause (ticks e (handleStart c).1)).2 =
        [{ status := .paused, duration := max 0 (c.displayTime - (e : Int)),
           started_at := none, revision := none }] := by
  have hok := reachable_client_ok hw hc
  have hcount : Counting (handleStart c).1 c.displayTime := by
    rw [handleStart_of_not_running c hs]
    exact ⟨rfl, hok.2.1, Or.inl ⟨rfl, rfl⟩⟩
  have h1 := ticks_counting e _ _ hcount
  have h2 := ticks_ok e _ (handleStart_ok c hok).1
  have h3 : pausedState (ticks e (handleStart c).1) =
      { status := .paused, duration := max 0 (c.displayTime - (e : Int)),
        started_at := none, revision := none } := by
    simp [pausedState, h1.1, h2.1.1, h2.1.2.1]
  rw [handlePause_eq]
  simp only [countdownEffect_timerState, h3, and_self]

/-- Witness of C4: the client that has just opened a created room, 10
callbacks. -/
theorem pause_writes_displayed_witness :
    (handlePause (ticks 10 (handleStart Client.mount).1)).1.timerState =
        { status := .paused, duration := max 0 (Client.mount.displayTime - ((10 : Nat) : Int)),
          started_at := none, revision := none } ∧
      (handlePause (ticks 10 (handleStart Client.mount).1)).2 =
        [{ status := .paused, duration := max 0 (Client.mount.displayTime - ((10 : Nat) : Int)),
           started_at := none, revision := none }] :=
  pause_writes_displayed (World.created.run [.join, .fetch 0])
    (reachable_run Reachable.created _) 0 Client.mount (by decide) (by decide) 10

/-- C4 as stated fails. (a) Start at time 0 with 1500 displayed, the clock
advances by 400 seconds and no callback fires: the state is running, Pause
writes duration 1500, not `max 0 (1500 - 400)`. (b) Start at time 0 with 1500,
5 seconds with a callback each, the notification of the Start reaches its
writer, 5 more seconds with a callback each: the state is running, Pause
writes duration 1495, not `max 0 (1500 - 10)`. -/
theorem pause_counterexample :
    ((startedRoom.step (.advance 400)).now = 400 ∧
      (startedRoom.step (.advance 400)).clients.map (fun c => c.timerState.status) = [.running] ∧
      ((startedRoom.step (.advance 400)).step (.press 0 .pause)).store =
        { status := .paused, duration := 1500, started_at := none, revision := none } ∧
      (1500 : Int) ≠ max 0 (1500 - 400)) ∧
    ((startedRoom.run (tickingEvents [1, 1, 1, 1, 1] ++ [.deliver 0 0] ++
        tickingEvents [1, 1, 1, 1, 1])).now = 10 ∧
      (startedRoom.run (tickingEvents [1, 1, 1, 1, 1] ++ [.deliver 0 0] ++
        tickingEvents [1, 1, 1, 1, 1])).clients.map (fun c => c.timerState.status) = [.running] ∧
      ((startedRoom.run (tickingEvents [1, 1, 1, 1, 1] ++ [.deliver 0 0] ++
        tickingEvents [1, 1, 1, 1, 1])).step (.press 0 .pause)).store =
        { status := .paused, duration := 1495, started_at := none, revision := none } ∧
      (1495 : Int) ≠ max 0 (1500 - 10)) := by
  decide

/-- C5, as the code has it: Reset takes no duration. For every client state it
makes the held state stopped with duration 1500 and no `started_at`, sets the
displayed value to 1500 and writes exactly that state; the Reset button is
never disabled, so no Reset is rejected. -/
theorem reset_to_default (c : Client) :
    (handleReset c).1.timerState.status = .stopped ∧
      (handleReset c).1.timerState.duration = 1500 ∧
      (handleReset c).1.timerState.started_at = none ∧
      (handleReset c).1.displayTime = 1500 ∧
      (handleReset c).2 = [(handleReset c).1.timerState] ∧
      press .reset c = handleReset c := by
  have hp : press .reset c = handleReset c := rfl
  have ht : (handleReset c).1.timerState = resetState := by
    rw [handleReset_eq]; exact countdownEffect_timerState _ _
  have hd : (handleReset c).1.displayTime = 1500 := by
    rw [handleReset_eq]; exact countdownEffect_displayTime _ _
  have hw : (handleReset c).2 = [resetState] := by rw [handleReset_eq]
  rw [ht]
  exact ⟨rfl, rfl, rfl, hd, hw, hp⟩

/-- C5 as stated fails: a Reset asked for 600 seconds, a positive duration,
produces duration 1500 and displays 1500. -/
theorem reset_counterexample :
    ¬ ∀ (c : Client) (newDuration : Int), 0 < newDuration →
      (handleReset c).1.timerState.duration = newDuration ∧
        (handleReset c).1.displayTime = newDuration := by
  intro h
  have h1 := (h Client.mount 600 (by decide)).1
  revert h1
  decide

/-- C6, as the code has it: in every room reachable from creation no timer
state (the row, a notification, a held state) has `started_at` set, whatever
its status; so a state with `started_at` set is running, and a running state
has none. -/
theorem started_at_never_set (w : World) (hw : Reachable w) (ts : TimerState)
    (hts : ts ∈ w.states) :
    ts.started_at = none ∧ (ts.started_at.isSome = true → ts.status = .running) := by
  have h := ((reachable_ok hw).1 ts hts).1
  refine ⟨h, fun h1 => ?_⟩
  rw [h] at h1
  exact absurd h1 (by decide)

/-- Witness of C6: the running state stored after Start. -/
theorem started_at_never_set_witness :
    startedRoom.store.status = .running ∧ startedRoom.store.started_at = none ∧
      (startedRoom.store.started_at.isSome = true → startedRoom.store.status = .running) :=
  ⟨by decide, started_at_never_set startedRoom (reachable_run Reachable.created _)
    startedRoom.store (by decide)⟩

/-- C6 as stated fails: after Start in a created room the stored state is
running and has no `started_at`. -/
theorem started_at_counterexample :
    ¬ ∀ (w : World), Reachable w → ∀ ts ∈ w.states,
      (ts.started_at.isSome = true ↔ ts.status = .running) := by
  intro h
  have h1 := h startedRoom (reachable_run Reachable.created _) startedRoom.store (by decide)
  revert h1
  decide

/-- C7: in every room reachable from creation by opening the room, reads,
Start, Pause, Reset, interval callbacks and delivery of the states the clients
wrote, every duration (of the row, of a notification, of a held state) and
every displayed remaining time is at least 0. -/
theorem durations_nonneg (w : World) (hw : Reachable w) :
    (∀ ts ∈ w.states, 0 ≤ ts.duration) ∧
      ∀ c ∈ w.clients, 0 ≤ c.displayTime ∧ 0 ≤ remaining c w.now :=
  ⟨fun ts hts => ((reachable_ok hw).1 ts hts).2.2, fun c hc => ⟨((reachable_ok hw).2 c hc).2.1, ((reachable_ok hw).2 c hc).2.1⟩⟩

/-- Witness of C7: the room of the end-to-end scenario after the Pause of B. -/
theorem durations_nonneg_witness :
    (∀ ts ∈ (World.created.run scenarioEvents).states, 0 ≤ ts.duration) ∧
      ∀ c ∈ (World.created.run scenarioEvents).clients,
        0 ≤ c.displayTime ∧ 0 ≤ remaining c (World.created.run scenarioEvents).now :=
  durations_nonneg (World.created.run scenarioEvents) (reachable_run Reachable.created _)

/-- C8, as the code has it: no revision is maintained. Start and Pause write
the held state with its `revision` copied unchanged, Reset writes a state
without one, the row becomes the written state whatever it held before, and in
a room reachable from creation no state carries a revision. -/
theorem revision_not_maintained (w : World) (i : Nat) (c : Client)
    (hc : w.clients[i]? = some c) :
    ((handleStart c).2 = [startedState c] ∧
        (startedState c).revision = c.timerState.revision ∧
        (w.act i handleStart).store = startedState c) ∧
      ((handlePause c).2 = [pausedState c] ∧
        (pausedState c).revision = c.timerState.revision ∧
        (w.act i handlePause).store = pausedState c) ∧
      ((handleReset c).2 = [resetState] ∧ resetState.revision = none ∧
        (w.act i handleReset).store = resetState) ∧
      (Reachable w → ∀ ts ∈ w.states, ts.revision = none) := by
  refine ⟨⟨?_, rfl, ?_⟩, ⟨?_, rfl, ?_⟩, ⟨?_, rfl, ?_⟩, fun hw ts hts => ((reachable_ok hw).1 ts hts).2.1⟩
  · rw [handleStart_eq]
  · rw [World.act_of_some w i _ c hc, handleStart_eq]; rfl
  · rw [handlePause_eq]
  · rw [World.act_of_some w i _ c hc, handlePause_eq]; rfl
  · rw [handleReset_eq]
  · rw [World.act_of_some w i _ c hc, handleReset_eq]; rfl

/-- Witness of C8: a client holding a state with revision 3, read from a row
with revision 3; Start writes revision 3 again and the row takes it. -/
theorem revision_not_maintained_witness :
    (startedState heldRevision3).revision = some 3 ∧
      (roomRevision3.act 0 handleStart).store = startedState heldRevision3 ∧
      revLt roomRevision3.store.revision (roomRevision3.act 0 handleStart).store.revision = false :=
  ⟨(revision_not_maintained roomRevision3 0 heldRevision3 rfl).1.2.1,
    (revision_not_maintained roomRevision3 0 heldRevision3 rfl).1.2.2, by decide⟩

/-- C8 as stated fails: in a created room that a client has opened, a press of
Start writes a state whose revision is not greater than the revision of the
row it replaces (neither has one), and the row becomes that state. -/
theorem revision_counterexample :
    ¬ ∀ (w : World), Reachable w → ∀ (i : Nat) (b : Button) (c : Client),
      w.clients[i]? = some c → ∀ ts ∈ (press b c).2,
        revLt w.store.revision ts.revision = true := by
  intro h
  have h1 := h (World.created.run [.join, .fetch 0]) (reachable_run Reachable.created _) 0 .start
    Client.mount (by decide) (startedState Client.mount) (by decide)
  revert h1
  decide

/-- C9, as the code has it: a change notification that carries a timer state is
never discarded. Whatever the revisions, the displayed value becomes the
delivered duration and the held state becomes the delivered state, or that
state paused when it is running with duration 0 and the displayed value was
not 0. -/
theorem notification_always_applied (c : Client) (ts : TimerState) :
    (onChange c (some ts)).1.displayTime = ts.duration ∧
      (onChange c (some ts)).1.timerState =
        if c.displayTime ≠ 0 ∧ ts.duration = 0 ∧ ts.status = .running then
          { ts with status := .paused }
        else ts := by
  refine ⟨effects_displayTime _ _, ?_⟩
  simp only [onChange, effects, pauseAtZero]
  by_cases h1 : ts.duration = 0
  · by_cases h2 : ts.status = .running
    · by_cases h3 : c.displayTime = 0
      · simp [h1, h2, h3, countdownEffect_timerState]
      · have : (0 : Int) ≠ c.displayTime := fun h => h3 h.symm
        simp [h1, h2, h3, this, pausedState]
    · simp [h1, h2, countdownEffect_timerState]
  · simp [h1, countdownEffect_timerState]

/-- C9 as stated fails: a client that holds a paused state with revision 2 and
displays 1490 receives a running state with revision 1 and duration 1500; it
then holds the revision 1 state and displays 1500. -/
theorem stale_counterexample :
    ¬ ∀ (c : Client) (ts : TimerState), revLe ts.revision c.timerState.revision = true →
      (onChange c (some ts)).1.timerState = c.timerState ∧
        (onChange c (some ts)).1.displayTime = c.displayTime := by
  intro h
  have h1 := h
    (onChange Client.mount
      (some { status := .paused, duration := 1490, started_at := none, revision := some 2 })).1
    { status := .running, duration := 1500, started_at := none, revision := some 1 } (by decide)
  revert h1
  decide

theorem effects_self (c : Client) : effects c c = (c, []) := by
  rw [effects_of_same_display c c rfl]
  simp [countdownEffect]

/-- Applying a delivered timer state twice in a row gives the same client state
(held timer state, displayed value, interval) as applying it once, unless it is
a running state with duration 0 delivered to a client whose displayed value is
not 0. -/
theorem onChange_twice (c : Client) (ts : TimerState)
    (h : ¬ (ts.status = .running ∧ ts.duration = 0 ∧ c.displayTime ≠ 0)) :
    (onChange (onChange c (some ts)).1 (some ts)).1 = (onChange c (some ts)).1 := by
  have hz : pauseAtZero c { c with timerState := ts, displayTime := ts.duration } = false := by
    simp only [pauseAtZero, Bool.and_eq_false_imp, Bool.and_eq_true, decide_eq_true_eq,
      decide_eq_false_iff_not]
    intro ⟨h1, h2⟩ h3
    apply h
    refine ⟨h3, h2, fun h4 => h1 ?_⟩
    show ts.duration = c.displayTime
    rw [h2, h4]
  have h1 : onChange c (some ts) =
      (countdownEffect c { c with timerState := ts, displayTime := ts.duration }, []) := by
    simp only [onChange, effects, hz, Bool.false_eq_true, if_false]
  have h2 : ∀ c1 : Client, c1.timerState = ts → c1.displayTime = ts.duration →
      onChange c1 (some ts) = (c1, []) := by
    intro c1 e1 e2
    have : ({ c1 with timerState := ts, displayTime := ts.duration } : Client) = c1 := by
      cases c1
      simp only at e1 e2
      simp [e1, e2]
    simp only [onChange, this, effects_self]
  rw [h1, h2 _ (countdownEffect_timerState _ _) (countdownEffect_displayTime _ _)]

/-! Running states -/

theorem World.act_inv (Q : TimerState → Prop) (P : Client → Prop)
    (hPQ : ∀ c, P c → Q c.timerState) (w : World) (i : Nat)
    (f : Client → Client × List TimerState) (hw : w.Inv Q P)
    (hf : ∀ c, P c → P (f c).1 ∧ ∀ x ∈ (f c).2, Q x) : (w.act i f).Inv Q P := by
  cases h : w.clients[i]? with
  | none => rw [World.act_of_none w i f h]; exact hw
  | some c =>
    rw [World.act_of_some w i f c h]
    obtain ⟨hs, hc⟩ := hw
    obtain ⟨h1, h2⟩ := hf c (hc c (List.getElem?_mem h))
    have hstore : Q w.store := hs w.store (by simp [World.states])
    refine ⟨?_, ?_⟩
    · intro ts hts
      simp only [World.states, List.mem_cons, List.mem_append, List.mem_map] at hts
      rcases hts with rfl | (hts | hts) | ⟨c', hc', rfl⟩
      · cases hl : (f c).2.getLast? with
        | none => simpa [hl] using hstore
        | some a => simpa [hl] using h2 a (List.mem_of_getLast?_eq_some hl)
      · exact hs ts (by simp [World.states, hts])
      · exact h2 ts hts
      · rcases List.mem_or_eq_of_mem_set hc' with hm | rfl
        · exact hPQ c' (hc c' hm)
        · exact hPQ _ h1
    · intro c' hc'
      rcases List.mem_or_eq_of_mem_set hc' with hm | rfl
      · exact hc c' hm
      · exact h1

theorem World.step_inv (Q : TimerState → Prop) (P : Client → Prop)
    (hPQ : ∀ c, P c → Q c.timerState) (hmount : P Client.mount)
    (hchange : ∀ c ts, P c → Q ts →
      P (onChange c (some ts)).1 ∧ ∀ x ∈ (onChange c (some ts)).2, Q x)
    (hpress : ∀ b c, P c → P (press b c).1 ∧ ∀ x ∈ (press b c).2, Q x)
    (htick : ∀ c, P c → P (tick c).1 ∧ ∀ x ∈ (tick c).2, Q x)
    (w : World) (e : Event) (hw : w.Inv Q P) : (w.step e).Inv Q P := by
  cases e with
  | advance s => exact hw
  | join =>
    refine ⟨?_, ?_⟩
    · intro ts hts
      simp only [World.step, World.states, List.map_append, List.map_cons, List.map_nil,
        List.mem_cons, List.mem_append, List.not_mem_nil, or_false] at hts
      rcases hts with rfl | hts | hts | rfl
      · exact hw.1 _ (by simp [World.states])
      · exact hw.1 _ (by simp [World.states, hts])
      · exact hw.1 _ (by
          simp only [World.states, List.mem_cons, List.mem_append]; exact Or.inr (Or.inr hts))
      · exact hPQ _ hmount
    · intro c hc
      simp only [World.step, List.mem_append, List.mem_singleton] at hc
      rcases hc with hc | rfl
      · exact hw.2 c hc
      · exact hmount
  | fetch i =>
    have hstore : Q w.store := hw.1 w.store (by simp [World.states])
    exact World.act_inv Q P hPQ w i _ hw (fun c hc => hchange c w.store hc hstore)
  | press i b => exact World.act_inv Q P hPQ w i _ hw (fun c hc => hpress b c hc)
  | tick i => exact World.act_inv Q P hPQ w i _ hw (fun c hc => htick c hc)
  | deliver i k =>
    simp only [World.step]
    cases h : w.sent[k]? with
    | none => exact hw
    | some ts =>
      have hts : Q ts := hw.1 ts (by simp [World.states, List.getElem?_mem h])
      exact World.act_inv Q P hPQ w i _ hw (fun c hc => hchange c ts hc hts)

theorem effects_live (prev next : Client) (hts : next.timerState.Live)
    (hd : next.timerState.status = .running → 0 ≤ next.displayTime)
    (hiv : next.timerState.status = prev.timerState.status →
      next.timerState.status = .running → next.intervalActive = true)
    (hpos : next.timerState.status = .running → next.displayTime = 0 →
      next.displayTime ≠ prev.displayTime) :
    (effects prev next).1.Live ∧ ∀ x ∈ (effects prev next).2, x.Live := by
  by_cases hz : pauseAtZero prev next = true
  · have hp : (pausedState next).Live := fun h => absurd h (by simp [pausedState])
    simp only [effects, hz, if_true, List.mem_singleton, forall_eq]
    exact ⟨⟨hp, fun h => absurd h (by simp [pausedState])⟩, hp⟩
  · simp only [effects, hz, Bool.false_eq_true, if_false, List.not_mem_nil, false_implies,
      implies_true, and_true]
    refine ⟨by rw [countdownEffect_timerState]; exact hts, ?_⟩
    rw [countdownEffect_timerState, countdownEffect_displayTime]
    intro hr
    have hne : next.displayTime ≠ 0 := by
      intro h0
      apply hz
      have h1 := hpos hr h0
      rw [h0] at h1
      simp [pauseAtZero, h1, h0, hr]
    refine ⟨?_, lt_of_le_of_ne (hd hr) (Ne.symm hne)⟩
    unfold countdownEffect
    split_ifs with hs
    · exact hiv hs hr
    · simp [hr]

theorem onChange_live (c : Client) (ts : TimerState) (hc : c.Ok ∧ c.Live)
    (hts : ts.Ok ∧ ts.Live) :
    ((onChange c (some ts)).1.Ok ∧ (onChange c (some ts)).1.Live) ∧
      ∀ x ∈ (onChange c (some ts)).2, x.Ok ∧ x.Live := by
  have h1 := onChange_ok c ts hc.1 hts.1
  have h2 : (onChange c (some ts)).1.Live ∧ ∀ x ∈ (onChange c (some ts)).2, x.Live := by
    apply effects_live
    · exact hts.2
    · intro hr; exact le_of_lt (hts.2 hr)
    · intro hs hr
      have : c.timerState.status = .running := by rw [← hr]; exact hs.symm
      exact (hc.2.2 this).1
    · intro hr h0
      have := hts.2 hr
      have h0' : ts.duration = 0 := h0
      omega
  exact ⟨⟨h1.1, h2.1⟩, fun x hx => ⟨h1.2 x hx, h2.2 x hx⟩⟩

theorem press_live (b : Button) (c : Client) (hc : c.Ok ∧ c.Live) :
    ((press b c).1.Ok ∧ (press b c).1.Live) ∧ ∀ x ∈ (press b c).2, x.Ok ∧ x.Live := by
  have h1 := press_ok b c hc.1
  have h2 : (press b c).1.Live ∧ ∀ x ∈ (press b c).2, x.Live := by
    unfold press
    split_ifs with hdis
    · simpa using hc.2
    · cases b with
      | start =>
        simp only [Button.disabled, Bool.or_eq_true, decide_eq_true_eq, not_or] at hdis
        have hpos : 0 < c.displayTime := lt_of_le_of_ne hc.1.2.1 (Ne.symm hdis.2)
        have hs : (startedState c).Live := fun _ => hpos
        rw [handleStart_of_not_running c hdis.1]
        simp only [List.mem_singleton, forall_eq]
        exact ⟨⟨hs, fun _ => ⟨rfl, hpos⟩⟩, hs⟩
      | pause =>
        have hp : (pausedState c).Live := fun h => absurd h (by simp [pausedState])
        rw [handlePause_eq]
        simp only [List.mem_singleton, forall_eq]
        refine ⟨⟨by rw [countdownEffect_timerState]; exact hp, ?_⟩, hp⟩
        rw [countdownEffect_timerState]
        intro h; exact absurd h (by simp [pausedState])
      | reset =>
        have hp : resetState.Live := fun h => absurd h (by simp [resetState])
        rw [handleReset_eq]
        simp only [List.mem_singleton, forall_eq]
        refine ⟨⟨by rw [countdownEffect_timerState]; exact hp, ?_⟩, hp⟩
        rw [countdownEffect_timerState]
        intro h; exact absurd h (by simp [resetState])
  exact ⟨⟨h1.1, h2.1⟩, fun x hx => ⟨h1.2 x hx, h2.2 x hx⟩⟩

theorem tick_live (c : Client) (hc : c.Ok ∧ c.Live) :
    ((tick c).1.Ok ∧ (tick c).1.Live) ∧ ∀ x ∈ (tick c).2, x.Ok ∧ x.Live := by
  have h1 := tick_ok c hc.1
  have h2 : (tick c).1.Live ∧ ∀ x ∈ (tick c).2, x.Live := by
    by_cases ha : c.intervalActive = true
    · have hr : c.timerState.status = .running := hc.1.2.2.2 ha
      have hp : c.displayTime > 0 := (hc.2.2 hr).2
      have ht : tick c = effects c { c with displayTime := c.displayTime - 1 } := by
        simp [tick, ha, hp]
      rw [ht]
      apply effects_live
      · exact hc.2.1
      · intro _; show 0 ≤ c.displayTime - 1; omega
      · intro _ _; exact ha
      · intro _ _; show c.displayTime - 1 ≠ c.displayTime; omega
    · have hf : c.intervalActive = false := by simpa using ha
      rw [tick_of_inactive c hf]
      simpa using hc.2
  exact ⟨⟨h1.1, h2.1⟩, fun x hx => ⟨h1.2 x hx, h2.2 x hx⟩⟩

theorem reachable_live {w : World} (h : Reachable w) :
    w.Inv (fun ts => ts.Ok ∧ ts.Live) (fun c => c.Ok ∧ c.Live) := by
  induction h with
  | created =>
    refine ⟨?_, ?_⟩
    · intro ts hts
      simp only [World.states, World.created, List.map_nil, List.append_nil, List.mem_cons,
        List.not_mem_nil, or_false] at hts
      subst hts
      exact ⟨⟨rfl, rfl, by decide⟩, fun h => absurd h (by decide)⟩
    · intro c hc
      simp [World.created] at hc
  | step e _ ih =>
    refine World.step_inv _ _ (fun c hc => ⟨hc.1.1, hc.2.1⟩) ?_ onChange_live press_live
      tick_live _ e ih
    exact ⟨Client.mount_ok, fun h => absurd h (by decide), fun h => absurd h (by decide)⟩

/-! Convergence, expiry, rendering, issuing commands -/

theorem press_start_of_zero (c : Client) (h : c.displayTime = 0) :
    press .start c = (c, []) := by
  simp [press, Button.disabled, h]

theorem press_start_of_ready (c : Client) (hs : c.timerState.status ≠ .running)
    (hd : c.displayTime ≠ 0) : press .start c = handleStart c := by
  simp [press, Button.disabled, hs, hd]

/-- C3, as the code has it: for every client state of a room reachable from
creation whose status is not running, when the displayed value is not 0 a press
of Start makes the held state and the stored row a state with status running
whose duration is the duration of the state Start was applied to, and that
state is the only one written; when the displayed value is 0 the Start button
is disabled and the press changes nothing. -/
theorem start_press_keeps_duration (w : World) (hw : Reachable w) (i : Nat) (c : Client)
    (hc : w.clients[i]? = some c) (hs : c.timerState.status ≠ .running) :
    (c.displayTime ≠ 0 →
        (press .start c).1.timerState.status = .running ∧
          (press .start c).1.timerState.duration = c.timerState.duration ∧
          (press .start c).2 = [(press .start c).1.timerState] ∧
          (w.step (.press i .start)).store.status = .running ∧
          (w.step (.press i .start)).store.duration = c.timerState.duration) ∧
      (c.displayTime = 0 → press .start c = (c, []) ∧ w.step (.press i .start) = w) := by
  have hok := reachable_client_ok hw hc
  have hdur : c.displayTime = c.timerState.duration := (hok.2.2.1 hs).symm
  have hstep : w.step (.press i .start) = w.act i (press .start) := rfl
  refine ⟨fun hd => ?_, fun hd => ?_⟩
  · have hp : press .start c =
        ({ c with timerState := startedState c, intervalActive := true }, [startedState c]) := by
      rw [press_start_of_ready c hs hd, handleStart_of_not_running c hs]
    rw [hstep, World.act_of_some w i _ c hc, hp]
    simp [startedState, hdur]
  · refine ⟨press_start_of_zero c hd, ?_⟩
    rw [hstep]
    apply World.act_noop
    intro c' hc'
    rw [hc] at hc'
    cases hc'
    exact press_start_of_zero c hd

/-- Witness of C3: the client that has just opened a created room and displays
1500. -/
theorem start_press_keeps_duration_witness :
    (press .start Client.mount).1.timerState.status = .running ∧
      (press .start Client.mount).1.timerState.duration = Client.mount.timerState.duration ∧
      (press .start Client.mount).2 = [(press .start Client.mount).1.timerState] ∧
      ((World.created.run [.join, .fetch 0]).step (.press 0 .start)).store.status = .running ∧
      ((World.created.run [.join, .fetch 0]).step (.press 0 .start)).store.duration =
        Client.mount.timerState.duration :=
  (start_press_keeps_duration (World.created.run [.join, .fetch 0])
    (reachable_run Reachable.created _) 0 Client.mount (by decide) (by decide)).1 (by decide)

/-- C3 as stated fails: after Start with 1500 displayed and 1500 interval
callbacks the client is paused and displays 0, a reachable state whose status
is not running; there the Start button is disabled and a press of Start leaves
the status as it is, not running. -/
theorem start_counterexample :
    ¬ ∀ (w : World), Reachable w → ∀ (i : Nat) (c : Client), w.clients[i]? = some c →
      c.timerState.status ≠ .running → (press .start c).1.timerState.status = .running := by
  intro h
  have hc0 : startedRoom.clients[0]? = some
      { timerState := { status := .running, duration := 1500, started_at := none, revision := none },
        displayTime := 1500, intervalActive := true } := by decide
  obtain ⟨_, c', hc', hcount⟩ := World.run_ticking (List.replicate 1500 1) startedRoom _ 1500 hc0
    ⟨rfl, by decide, Or.inl ⟨rfl, rfl⟩⟩
  have hd : c'.displayTime = 0 := by
    have h1 := hcount.1
    rw [List.length_replicate] at h1
    rw [h1]
    decide
  have hw : Reachable (startedRoom.run (tickingEvents (List.replicate 1500 1))) :=
    reachable_run (reachable_run Reachable.created _) _
  have hlive := (reachable_live hw).2 c' (List.getElem?_mem hc')
  have hs : c'.timerState.status ≠ .running := by
    intro hr
    have := (hlive.2.2 hr).2
    omega
  have h1 := h _ hw 0 c' hc' hs
  rw [press_start_of_zero c' hd] at h1
  exact hs h1

/-- C10: for every client state and every timer state of a room reachable from
creation, in particular every change notification emitted in it, applying the
notification twice in a row gives exactly the same client state (held timer
state, displayed value, interval) as applying it once. -/
theorem duplicate_delivery_idempotent (w : World) (hw : Reachable w) (c : Client)
    (ts : TimerState) (hts : ts ∈ w.states) :
    (onChange (onChange c (some ts)).1 (some ts)).1 = (onChange c (some ts)).1 ∧
      (onChange (onChange c (some ts)).1 (some ts)).1.timerState =
        (onChange c (some ts)).1.timerState ∧
      (onChange (onChange c (some ts)).1 (some ts)).1.displayTime =
        (onChange c (some ts)).1.displayTime := by
  have h : (onChange (onChange c (some ts)).1 (some ts)).1 = (onChange c (some ts)).1 := by
    apply onChange_twice
    rintro ⟨hr, hz, _⟩
    have := ((reachable_live hw).1 ts hts).2 hr
    omega
  exact ⟨h, by rw [h], by rw [h]⟩

/-- Witness of C10: the notification of the Start is delivered twice to the
client of `startedRoom`, which holds the running state and displays 1500. -/
theorem duplicate_delivery_idempotent_witness :
    startedRoom.sent = [{ createdState with status := .running }] ∧
      (onChange (onChange
          { timerState := { createdState with status := .running }, displayTime := 1500,
            intervalActive := true }
          (some { createdState with status := .running })).1
        (some { createdState with status := .running })).1 =
      (onChange
        { timerState := { createdState with status := .running }, displayTime := 1500,
          intervalActive := true } (some { createdState with status := .running })).1 :=
  ⟨by decide,
    (duplicate_delivery_idempotent startedRoom (reachable_run Reachable.created _)
      { timerState := { createdState with status := .running }, displayTime := 1500,
        intervalActive := true } { createdState with status := .running } (by decide)).1⟩

theorem onChange_of_live (c : Client) (ts : TimerState)
    (h : ts.status ≠ .running ∨ ts.duration ≠ 0) :
    (onChange c (some ts)).1.timerState = ts ∧ (onChange c (some ts)).1.displayTime = ts.duration := by
  have hz : pauseAtZero c { c with timerState := ts, displayTime := ts.duration } = false := by
    simp only [pauseAtZero, Bool.and_eq_false_imp, Bool.and_eq_true, decide_eq_true_eq,
      decide_eq_false_iff_not]
    intro ⟨_, h2⟩ h3
    rcases h with h | h
    · exact h h3
    · exact h h2
  refine ⟨?_, effects_displayTime _ _⟩
  simp only [onChange, effects, hz, Bool.false_eq_true, if_false, countdownEffect_timerState]

theorem app_reachable_reachable {w : World} (h : AppReachable w) : Reachable w := by
  induction h with
  | opened => exact Reachable.step _ Reachable.created
  | step e _ _ ih => exact Reachable.step e ih

theorem World.act_single (w : World) (i : Nat) (f : Client → Client × List TimerState)
    (c : Client) (h : w.clients = [c]) :
    (i = 0 ∧ (w.act i f).clients = [(f c).1]) ∨ (i ≠ 0 ∧ w.act i f = w) := by
  cases i with
  | zero =>
    left
    refine ⟨rfl, ?_⟩
    have hc : w.clients[0]? = some c := by rw [h]; rfl
    rw [World.act_of_some w 0 f c hc, h]
    rfl
  | succ j =>
    right
    refine ⟨Nat.succ_ne_zero j, ?_⟩
    apply World.act_of_none
    rw [h]
    rfl

theorem app_reachable_single {w : World} (h : AppReachable w) : ∃ c, w.clients = [c] := by
  induction h with
  | opened => exact ⟨Client.mount, rfl⟩
  | @step w e hne _ ih =>
    obtain ⟨c, hc⟩ := ih
    have hact : ∀ (i : Nat) (f : Client → Client × List TimerState),
        ∃ c', (w.act i f).clients = [c'] := by
      intro i f
      rcases World.act_single w i f c hc with ⟨_, h1⟩ | ⟨_, h1⟩
      · exact ⟨_, h1⟩
      · exact ⟨c, by rw [h1, hc]⟩
    cases e with
    | advance s => exact ⟨c, hc⟩
    | join => exact absurd rfl hne
    | fetch i => exact hact i _
    | press i b => exact hact i _
    | tick i => exact hact i _
    | deliver i k =>
      simp only [World.step]
      cases hk : w.sent[k]? with
      | none => exact ⟨c, hc⟩
      | some ts => exact hact i _

/-- C11: in every room that arises in the app (a room has the one `RoomScreen`
of its creator, no screen opens an existing room), for every sequence of reads,
Start, Pause, Reset, interval callbacks and deliveries, all clients viewing the
room hold the same status and display the same remaining duration; and once the
last written state has reached them, every client holds that state and displays
its duration. -/
theorem single_viewer_converges (w : World) (hw : AppReachable w) :
    (∃ c, w.clients = [c]) ∧
      (∀ c1 ∈ w.clients, ∀ c2 ∈ w.clients,
        c1.timerState.status = c2.timerState.status ∧ c1.displayTime = c2.displayTime) ∧
      ∀ ts, w.sent.getLast? = some ts →
        ∀ c ∈ (w.step (.deliver 0 (w.sent.length - 1))).clients,
          c.timerState = ts ∧ c.displayTime = ts.duration := by
  obtain ⟨c, hc⟩ := app_reachable_single hw
  refine ⟨⟨c, hc⟩, ?_, ?_⟩
  · intro c1 h1 c2 h2
    rw [hc, List.mem_singleton] at h1 h2
    rw [h1, h2]
    exact ⟨rfl, rfl⟩
  · intro ts hts c' hc'
    have hk : w.sent[w.sent.length - 1]? = some ts := by
      rw [← List.getLast?_eq_getElem?]; exact hts
    have hmem : ts ∈ w.states := by
      simp [World.states, List.getElem?_mem hk]
    have hlive := ((reachable_live (app_reachable_reachable hw)).1 ts hmem).2
    have hne : ts.status ≠ .running ∨ ts.duration ≠ 0 := by
      by_cases hr : ts.status = .running
      · right; have := hlive hr; omega
      · left; exact hr
    simp only [World.step, hk] at hc'
    rcases World.act_single w 0 (fun c => onChange c (some ts)) c hc with ⟨_, h1⟩ | ⟨h0, _⟩
    · rw [h1, List.mem_singleton] at hc'
      rw [hc']
      exact onChange_of_live c ts hne
    · exact absurd rfl h0

/-- Witness of C11: the room after its creator pressed Start; once the
notification of the Start has reached the creator's screen, it holds the
running state and displays 1500. -/
theorem single_viewer_converges_witness :
    startedRoom.sent.getLast? = some { createdState with status := .running } ∧
      (startedRoom.step (.deliver 0 (startedRoom.sent.length - 1))).clients =
        [{ timerState := { createdState with status := .running }, displayTime := 1500,
           intervalActive := true }] ∧
      ({ timerState := { createdState with status := .running }, displayTime := 1500,
         intervalActive := true } : Client).timerState =
        { createdState with status := .running } ∧
      ({ timerState := { createdState with status := .running }, displayTime := 1500,
         intervalActive := true } : Client).displayTime =
        ({ createdState with status := .running } : TimerState).duration :=
  ⟨by decide, by decide,
    (single_viewer_converges startedRoom
      (AppReachable.step (.press 0 .start) (by decide)
        (AppReachable.step (.fetch 0) (by decide) AppReachable.opened))).2.2
      { createdState with status := .running } (by decide)
      { timerState := { createdState with status := .running }, displayTime := 1500,
        intervalActive := true } (by decide)⟩

set_option maxRecDepth 100000 in
/-- If a second `RoomScreen` were mounted on a room (the app never does so, see
`AppReachable`): A starts at time 0 and receives its own notification, 100
seconds pass with one callback each, then B opens the room, reads the row and
receives the notification of the Start. Both hold the running state, A displays
1400 and B displays 1500; five more seconds with a callback on each client
leave 1395 and 1495. -/
theorem late_joiner_diverges :
    (World.created.run lateJoinEvents).now = 100 ∧
      (World.created.run lateJoinEvents).sent = [{ createdState with status := .running }] ∧
      (World.created.run lateJoinEvents).store = { createdState with status := .running } ∧
      (World.created.run lateJoinEvents).clients =
        [{ timerState := { createdState with status := .running }, displayTime := 1400,
           intervalActive := true },
         { timerState := { createdState with status := .running }, displayTime := 1500,
           intervalActive := true }] ∧
      ((World.created.run lateJoinEvents).run
          (List.replicate 5 [.advance 1, .tick 0, .tick 1]).flatten).clients.map
        (fun c => (c.timerState.status, c.displayTime)) =
        [(.running, 1395), (.running, 1495)] := by
  decide

/-- C12: when the interval of a running client that displays 1 fires, the
displayed value becomes 0, the client issues Pause: it holds and writes the
held state with status paused and duration 0, the row takes it and it is
emitted as a notification. More generally, after every render in which the
displayed value changed to 0 while the status is running, the effects write
exactly that paused state with duration 0 and the client holds it. -/
theorem auto_pause_at_zero (w : World) (i : Nat) (c : Client) (hc : w.clients[i]? = some c)
    (hrun : c.timerState.status = .running) (hlive : c.intervalActive = true)
    (h1 : c.displayTime = 1) :
    ((w.step (.tick i)).clients[i]? =
        some { timerState := { c.timerState with status := .paused, duration := 0 },
               displayTime := 0, intervalActive := false } ∧
      (w.step (.tick i)).store = { c.timerState with status := .paused, duration := 0 } ∧
      (w.step (.tick i)).sent =
        w.sent ++ [{ c.timerState with status := .paused, duration := 0 }]) ∧
    ∀ prev next : Client, next.displayTime ≠ prev.displayTime → next.displayTime = 0 →
      next.timerState.status = .running →
      (effects prev next).2 = [{ next.timerState with status := .paused, duration := 0 }] ∧
        (effects prev next).1.timerState =
          { next.timerState with status := .paused, duration := 0 } ∧
        (effects prev next).1.displayTime = 0 := by
  have hgen : ∀ prev next : Client, next.displayTime ≠ prev.displayTime → next.displayTime = 0 →
      next.timerState.status = .running →
      effects prev next =
        ({ countdownEffect prev next with
            timerState := { next.timerState with status := .paused, duration := 0 },
            intervalActive := false },
          [{ next.timerState with status := .paused, duration := 0 }]) := by
    intro prev next hch hz hr
    have h0 : (0 : Int) ≠ prev.displayTime := by rw [← hz]; exact hch
    have hp : pauseAtZero prev next = true := by simp [pauseAtZero, h0, hz, hr]
    simp only [effects, hp, if_true, pausedState, hz]
  refine ⟨?_, ?_⟩
  · have ht : tick c =
        ({ timerState := { c.timerState with status := .paused, duration := 0 },
           displayTime := 0, intervalActive := false },
          [{ c.timerState with status := .paused, duration := 0 }]) := by
      have h2 : tick c = effects c { c with displayTime := c.displayTime - 1 } := by
        simp [tick, hlive, h1]
      have h3 := hgen c { c with displayTime := c.displayTime - 1 }
        (by show c.displayTime - 1 ≠ c.displayTime; omega)
        (by show c.displayTime - 1 = 0; omega) hrun
      rw [h2, h3]
      simp [countdownEffect_displayTime, h1]
    have hstep : w.step (.tick i) = w.act i tick := rfl
    refine ⟨?_, ?_, ?_⟩
    · rw [hstep, World.act_client w i tick c hc, ht]
    · rw [hstep, World.act_of_some w i tick c hc, ht]; rfl
    · rw [hstep, World.act_of_some w i tick c hc, ht]
  · intro prev next hch hz hr
    rw [hgen prev next hch hz hr]
    exact ⟨rfl, rfl, by simp [countdownEffect_displayTime, hz]⟩

/-- Witness of C12: a room whose one client is running and displays 1. -/
theorem auto_pause_at_zero_witness :
    (({ now := 1499, store := { createdState with status := .running }, sent := [],
        clients := [{ timerState := { createdState with status := .running },
                      displayTime := 1, intervalActive := true }] } : World).step
      (.tick 0)).store = { createdState with status := .paused, duration := 0 } :=
  (auto_pause_at_zero
    { now := 1499, store := { createdState with status := .running }, sent := [],
      clients := [{ timerState := { createdState with status := .running },
                    displayTime := 1, intervalActive := true }] }
    0 { timerState := { createdState with status := .running }, displayTime := 1,
        intervalActive := true } rfl rfl rfl rfl).1.2.1

/-- C13: for every client of a room reachable from creation and every timer
state `ts` of that room (the row, read by `fetchTimer`, or a change
notification), once the client has received `ts` and its interval has fired `n`
times, the value rendered is `max 0 (ts.duration - n)` when `ts` is running and
stays `ts.duration` when it is not. -/
theorem tick_rendering (w : World) (hw : Reachable w) (i : Nat) (c : Client)
    (hc : w.clients[i]? = some c) (ts : TimerState) (hts : ts ∈ w.states) (n : Nat) :
    0 ≤ ts.duration ∧
      (ts.status = .running →
        remaining (ticks n (onChange c (some ts)).1) (w.now + n) =
          max 0 (ts.duration - (n : Int))) ∧
      (ts.status ≠ .running →
        remaining (ticks n (onChange c (some ts)).1) (w.now + n) = ts.duration) := by
  have hinv := reachable_live hw
  have hcl := hinv.2 c (List.getElem?_mem hc)
  have htl := hinv.1 ts hts
  have h1 := (onChange_live c ts hcl htl).1
  have hd : (onChange c (some ts)).1.displayTime = ts.duration := effects_displayTime _ _
  have hst : ts.status ≠ .running ∨ ts.duration ≠ 0 →
      (onChange c (some ts)).1.timerState = ts := by
    intro h
    have hz : pauseAtZero c { c with timerState := ts, displayTime := ts.duration } = false := by
      simp only [pauseAtZero, Bool.and_eq_false_imp, Bool.and_eq_true, decide_eq_true_eq,
        decide_eq_false_iff_not]
      intro ⟨_, h2⟩ h3
      rcases h with h | h
      · exact h h3
      · exact h h2
    simp only [onChange, effects, hz, Bool.false_eq_true, if_false, countdownEffect_timerState]
  refine ⟨htl.1.2.2, ?_, ?_⟩
  · intro hr
    have hpos := htl.2 hr
    have hs : (onChange c (some ts)).1.timerState.status = .running := by
      rw [hst (Or.inr (by omega))]; exact hr
    have hcount : Counting (onChange c (some ts)).1 ts.duration :=
      ⟨hd, le_of_lt hpos, Or.inl ⟨(h1.2.2 hs).1, hs⟩⟩
    exact (ticks_counting n _ _ hcount).1
  · intro hr
    have hs : (onChange c (some ts)).1.timerState.status ≠ .running := by
      rw [hst (Or.inl hr)]; exact hr
    have hoff : (onChange c (some ts)).1.intervalActive = false := by
      cases hi : (onChange c (some ts)).1.intervalActive with
      | false => rfl
      | true => exact absurd (h1.1.2.2.2 hi) hs
    show (ticks n (onChange c (some ts)).1).displayTime = ts.duration
    rw [ticks_of_inactive n _ hoff, hd]

/-- Witness of C13: the client of `startedRoom` receives the running state of
the row and its interval fires 400 times. -/
theorem tick_rendering_witness :
    remaining
        (ticks 400 (onChange
          { timerState := { createdState with status := .running }, displayTime := 1500,
            intervalActive := true }
          (some startedRoom.store)).1) (startedRoom.now + 400) =
      max 0 (startedRoom.store.duration - ((400 : Nat) : Int)) :=
  (tick_rendering startedRoom (reachable_run Reachable.created _) 0
    { timerState := { createdState with status := .running }, displayTime := 1500,
      intervalActive := true }
    (by decide) startedRoom.store (by decide) 400).2.1 (by decide)

/-- C14, as the code has it: issuing a command changes the held state of the
issuing client at once, before anything is received from the store. Start sets
the held status to running and Pause to paused, both leaving the displayed
value as it is; Reset sets the held status to stopped and the displayed value
to 1500. -/
theorem commands_set_held_state (c : Client) :
    ((handleStart c).1.timerState.status = .running ∧
        (handleStart c).1.displayTime = c.displayTime) ∧
      ((handlePause c).1.timerState.status = .paused ∧
        (handlePause c).1.displayTime = c.displayTime) ∧
      ((handleReset c).1.timerState.status = .stopped ∧
        (handleReset c).1.displayTime = 1500) := by
  rw [handleStart_eq, handlePause_eq, handleReset_eq]
  simp only [countdownEffect_timerState, countdownEffect_displayTime]
  exact ⟨⟨rfl, trivial⟩, ⟨rfl, trivial⟩, rfl, trivial⟩

/-- C14 as stated fails: on a freshly mounted client, which holds a stopped
state, a press of Start alone makes the held status running. -/
theorem commands_counterexample :
    ¬ ∀ (c : Client) (b : Button),
      (press b c).1.timerState.status = c.timerState.status ∧
        (press b c).1.displayTime = c.displayTime := by
  intro h
  have h1 := h Client.mount .start
  revert h1
  decide

/-- C15: in every room, a press of Start on a client whose held state is
running, whatever value it displays, does nothing: the Start button is
disabled, so the client state, the row and the notifications are unchanged. -/
theorem start_while_running (w : World) (i : Nat) (c : Client) (hc : w.clients[i]? = some c)
    (hrun : c.timerState.status = .running) :
    press .start c = (c, []) ∧ w.step (.press i .start) = w := by
  have hp : press .start c = (c, []) := by
    simp [press, Button.disabled, hrun]
  refine ⟨hp, ?_⟩
  apply World.act_noop
  intro c' hc'
  rw [hc] at hc'
  cases hc'
  exact hp

/-- Witness of C15: a second press of Start in `startedRoom`. -/
theorem start_while_running_witness :
    startedRoom.step (.press 0 .start) = startedRoom :=
  (start_while_running startedRoom 0
    { timerState := { createdState with status := .running }, displayTime := 1500,
      intervalActive := true } (by decide) rfl).2

/-! The text of the displayed value -/

theorem digitChar_spec (k : Nat) (hk : k < 10) :
    (Nat.digitChar k).toNat - '0'.toNat = k ∧ (Nat.digitChar k != ':') = true := by
  interval_cases k <;> decide

theorem toDigitsCore_append (fuel n : Nat) (ds : List Char) :
    Nat.toDigitsCore 10 fuel n ds = Nat.toDigitsCore 10 fuel n [] ++ ds := by
  induction fuel generalizing n ds with
  | zero => simp [Nat.toDigitsCore]
  | succ f ih =>
    simp only [Nat.toDigitsCore]
    split_ifs
    · simp
    · rw [ih (n / 10) (Nat.digitChar (n % 10) :: ds), ih (n / 10) [Nat.digitChar (n % 10)]]
      simp

theorem readDecimal_append (xs : List Char) (c : Char) :
    readDecimal (xs ++ [c]) = 10 * readDecimal xs + (c.toNat - '0'.toNat) := by
  simp [readDecimal, List.foldl_append]

theorem toDigitsCore_spec (fuel n : Nat) (h : n < fuel) :
    readDecimal (Nat.toDigitsCore 10 fuel n []) = n ∧
      ∀ c ∈ Nat.toDigitsCore 10 fuel n [], (c != ':') = true := by
  induction fuel generalizing n with
  | zero => omega
  | succ f ih =>
    have hd := digitChar_spec (n % 10) (Nat.mod_lt _ (by decide))
    simp only [Nat.toDigitsCore]
    split_ifs with h0
    · have hn : n % 10 = n := by omega
      refine ⟨?_, ?_⟩
      · simp only [readDecimal, List.foldl_cons, List.foldl_nil, Nat.mul_zero, Nat.zero_add]
        rw [hd.1, hn]
      · intro c hc
        simp only [List.mem_singleton] at hc
        rw [hc]; exact hd.2
    · have hlt : n / 10 < f := by omega
      obtain ⟨h1, h2⟩ := ih (n / 10) hlt
      rw [toDigitsCore_append]
      refine ⟨?_, ?_⟩
      · rw [readDecimal_append, h1, hd.1]; omega
      · intro c hc
        simp only [List.mem_append, List.mem_singleton] at hc
        rcases hc with hc | hc
        · exact h2 c hc
        · rw [hc]; exact hd.2

theorem readDecimal_padStart (cs : List Char) (n : Nat) :
    readDecimal (padStart cs n '0') = readDecimal cs := by
  unfold padStart
  generalize n - cs.length = k
  induction k with
  | zero => simp
  | succ k ih =>
    rw [List.replicate_succ, List.cons_append]
    simpa [readDecimal] using ih

theorem padStart_no_colon (cs : List Char) (n : Nat) (h : ∀ c ∈ cs, (c != ':') = true) :
    ∀ c ∈ padStart cs n '0', (c != ':') = true := by
  intro c hc
  simp only [padStart, List.mem_append, List.mem_replicate] at hc
  rcases hc with ⟨_, rfl⟩ | hc
  · decide
  · exact h c hc

theorem fields_mk (a b : List Char) (h : ∀ c ∈ a, (c != ':') = true) :
    fields (String.mk (a ++ ':' :: b)) = (a, b) := by
  unfold fields
  induction a with
  | nil => simp
  | cons x xs ih =>
    have hx : (x != ':') = true := h x (List.mem_cons_self _ _)
    have hxs : ∀ c ∈ xs, (c != ':') = true := fun c hc => h c (List.mem_cons_of_mem _ hc)
    have ih' := ih hxs
    simp only [Prod.mk.injEq] at ih'
    simp only [List.cons_append, List.takeWhile_cons, hx, if_true, List.dropWhile_cons,
      Prod.mk.injEq, List.cons.injEq, true_and]
    exact ih'

theorem padStart_length_two (k : Nat) (hk : k < 100) :
    (padStart (Nat.toDigits 10 k) 2 '0').length = 2 := by
  interval_cases k <;> decide

/-- C17: for every natural number `secs`, `formatTime secs` is the decimal form
of `secs / 60` left-padded with `'0'` to at least two characters, a colon, and
the decimal form of `secs % 60` padded to exactly two characters; for
`secs < 6000` the text has exactly 5 characters; and the two fields read back
as numbers `m` and `s` give `60 * m + s = secs`. -/
theorem formatTime_spec (secs : Nat) :
    (formatTime secs).data =
        padStart (Nat.toDigits 10 (secs / 60)) 2 '0' ++ ':' ::
          padStart (Nat.toDigits 10 (secs % 60)) 2 '0' ∧
      2 ≤ (padStart (Nat.toDigits 10 (secs / 60)) 2 '0').length ∧
      (padStart (Nat.toDigits 10 (secs % 60)) 2 '0').length = 2 ∧
      (secs < 6000 → (formatTime secs).length = 5) ∧
      60 * readDecimal (fields (formatTime secs)).1 + readDecimal (fields (formatTime secs)).2 =
        secs := by
  have hs : (padStart (Nat.toDigits 10 (secs % 60)) 2 '0').length = 2 :=
    padStart_length_two _ (by omega)
  have hm := toDigitsCore_spec (secs / 60 + 1) (secs / 60) (by omega)
  have hs2 := toDigitsCore_spec (secs % 60 + 1) (secs % 60) (by omega)
  refine ⟨rfl, ?_, hs, ?_, ?_⟩
  · simp only [padStart, List.length_append, List.length_replicate]
    omega
  · intro h
    have hmin : (padStart (Nat.toDigits 10 (secs / 60)) 2 '0').length = 2 :=
      padStart_length_two _ (by omega)
    show (padStart (Nat.toDigits 10 (secs / 60)) 2 '0' ++
      ':' :: padStart (Nat.toDigits 10 (secs % 60)) 2 '0').length = 5
    rw [List.length_append, List.length_cons, hmin, hs]
  · have hf : fields (formatTime secs) =
        (padStart (Nat.toDigits 10 (secs / 60)) 2 '0',
          padStart (Nat.toDigits 10 (secs % 60)) 2 '0') :=
      fields_mk _ _ (padStart_no_colon _ 2 hm.2)
    rw [hf]
    simp only [readDecimal_padStart]
    show 60 * readDecimal (Nat.toDigitsCore 10 (secs / 60 + 1) (secs / 60) []) +
      readDecimal (Nat.toDigitsCore 10 (secs % 60 + 1) (secs % 60) []) = secs
    rw [hm.1, hs2.1]
    omega

/-- Witness of C17: 1490 seconds are rendered as `24:50`. -/
theorem formatTime_spec_witness :
    formatTime 1490 = "24:50" ∧ (formatTime 1490).length = 5 :=
  ⟨by decide, (formatTime_spec 1490).2.2.2.1 (by decide)⟩

end Room

namespace CreateRoom

theorem chars_length : chars.length = 32 := by decide

theorem charAt_floor (r : ℚ) (h0 : 0 ≤ r) (h1 : r < 1) :
    ∃ c ∈ chars, charAt chars ⌊r * (chars.length : ℚ)⌋ = [c] := by
  have hlen : ((chars.length : ℕ) : ℚ) = 32 := by rw [chars_length]; norm_num
  rw [hlen]
  have hnn : 0 ≤ ⌊r * 32⌋ := Int.floor_nonneg.mpr (by positivity)
  have hlt : ⌊r * 32⌋ < 32 := by
    rw [Int.floor_lt]
    push_cast
    linarith
  have hk : ⌊r * 32⌋.toNat < chars.length := by
    rw [chars_length]; omega
  refine ⟨chars[⌊r * 32⌋.toNat], List.getElem_mem _, ?_⟩
  simp only [charAt, hnn, if_true, List.getElem?_eq_getElem hk]

theorem loop_spec (random : Nat → ℚ) (h : ∀ i, 0 ≤ random i ∧ random i < 1) (n : Nat) :
    ((List.range n).foldl
        (fun code i => code ++ charAt chars ⌊random i * (chars.length : ℚ)⌋) []).length = n ∧
      ∀ c ∈ (List.range n).foldl
        (fun code i => code ++ charAt chars ⌊random i * (chars.length : ℚ)⌋) [], c ∈ chars := by
  induction n with
  | zero => simp
  | succ n ih =>
    obtain ⟨c, hc, he⟩ := charAt_floor (random n) (h n).1 (h n).2
    rw [List.range_succ, List.foldl_append, List.foldl_cons, List.foldl_nil, he]
    refine ⟨by rw [List.length_append, ih.1]; rfl, ?_⟩
    intro x hx
    simp only [List.mem_append, List.mem_singleton] at hx
    rcases hx with hx | rfl
    · exact ih.2 x hx
    · exact hc

/-- C16: for every requested length `n` (6 in the only call) and every
sequence of outcomes of the random source in [0, 1), `generateRoomCode` returns
a string of exactly `n` characters, each one a member of the alphabet `chars`;
the alphabet has 32 different characters and none of `I`, `O`, `0`, `1`. -/
theorem generateRoomCode_spec (random : Nat → ℚ) (h : ∀ i, 0 ≤ random i ∧ random i < 1)
    (n : Nat) :
    (generateRoomCode random n).length = n ∧
      (∀ c ∈ (generateRoomCode random n).data, c ∈ chars) ∧
      (generateRoomCode random 6).length = 6 ∧
      chars.length = 32 ∧ chars.Nodup ∧
      'I' ∉ chars ∧ 'O' ∉ chars ∧ '0' ∉ chars ∧ '1' ∉ chars :=
  ⟨(loop_spec random h n).1, (loop_spec random h n).2, (loop_spec random h 6).1,
    by decide, by decide, by decide, by decide, by decide, by decide⟩

/-- Witness of C16: the random source that always returns one half gives
a code of 6 characters of the alphabet. -/
theorem generateRoomCode_spec_witness :
    (generateRoomCode (fun _ => 1 / 2) 6).length = 6 ∧
      ∀ c ∈ (generateRoomCode (fun _ => 1 / 2) 6).data, c ∈ chars :=
  ⟨(generateRoomCode_spec (fun _ => 1 / 2) (fun _ => ⟨by norm_num, by norm_num⟩) 6).1,
    (generateRoomCode_spec (fun _ => 1 / 2) (fun _ => ⟨by norm_num, by norm_num⟩) 6).2.1⟩

end CreateRoom

namespace Home

/-! The upcoming list -/

theorem compareTasks_le_iff (lc : String → String → Int) (a b : Task) :
    compareTasks lc a b ≤ 0 ↔
      a.dueDate.getD 0 < b.dueDate.getD 0 ∨
        (a.dueDate.getD 0 = b.dueDate.getD 0 ∧ lc a.time b.time ≤ 0) := by
  unfold compareTasks
  split_ifs with h
  · constructor
    · intro h1; left; omega
    · rintro (h1 | ⟨h1, _⟩) <;> omega
  · have he : a.dueDate.getD 0 = b.dueDate.getD 0 := by
      simp only [ne_eq, not_not] at h; omega
    constructor
    · intro h1; exact Or.inr ⟨he, h1⟩
    · rintro (h1 | ⟨_, h1⟩)
      · omega
      · exact h1

theorem codeUnitCompare_le_iff (a b : String) : codeUnitCompare a b ≤ 0 ↔ a ≤ b := by
  unfold codeUnitCompare
  split_ifs with h1 h2
  · simp [le_of_lt h1]
  · simp [h2]
  · have : ¬ a ≤ b := fun h => (lt_or_eq_of_le h).elim h1 h2
    simp [this]

theorem codeUnitCompare_total (a b : String) :
    codeUnitCompare a b ≤ 0 ∨ codeUnitCompare b a ≤ 0 := by
  rw [codeUnitCompare_le_iff, codeUnitCompare_le_iff]
  exact le_total a b

theorem codeUnitCompare_trans (a b c : String) (h1 : codeUnitCompare a b ≤ 0)
    (h2 : codeUnitCompare b c ≤ 0) : codeUnitCompare a c ≤ 0 := by
  rw [codeUnitCompare_le_iff] at *
  exact le_trans h1 h2

/-- What `upcoming` computes: the first three (all, when there are at most
three) of the tasks that are incomplete and have a due date, overdue ones
included, in the order of ascending due date and, for equal due dates, of
ascending time text as `localeCompare` orders it. Every task it holds is such a
task, and such a task that it leaves out stands, in that order, after each of
the three it holds. -/
theorem upcoming_spec (localeCompare : String → String → Int)
    (htot : ∀ a b, localeCompare a b ≤ 0 ∨ localeCompare b a ≤ 0)
    (htrans : ∀ a b c, localeCompare a b ≤ 0 → localeCompare b c ≤ 0 → localeCompare a c ≤ 0)
    (tasks : List Task) :
    (upcoming localeCompare tasks).length =
        min 3 (tasks.filter (fun t => !t.completed && t.dueDate.isSome)).length ∧
      (∀ t ∈ upcoming localeCompare tasks,
        t ∈ tasks ∧ t.completed = false ∧ t.dueDate.isSome = true) ∧
      (upcoming localeCompare tasks).Pairwise (fun a b =>
        a.dueDate.getD 0 < b.dueDate.getD 0 ∨
          (a.dueDate.getD 0 = b.dueDate.getD 0 ∧ localeCompare a.time b.time ≤ 0)) ∧
      ∀ t ∈ tasks, t.completed = false → t.dueDate.isSome = true →
        t ∉ upcoming localeCompare tasks →
        (upcoming localeCompare tasks).length = 3 ∧
          ∀ u ∈ upcoming localeCompare tasks,
            u.dueDate.getD 0 < t.dueDate.getD 0 ∨
              (u.dueDate.getD 0 = t.dueDate.getD 0 ∧ localeCompare u.time t.time ≤ 0) := by
  have hr_tot : IsTotal Task (fun a b => compareTasks localeCompare a b ≤ 0) := by
    refine ⟨fun a b => ?_⟩
    rw [compareTasks_le_iff, compareTasks_le_iff]
    rcases lt_trichotomy (a.dueDate.getD 0) (b.dueDate.getD 0) with h | h | h
    · exact Or.inl (Or.inl h)
    · rcases htot a.time b.time with h1 | h1
      · exact Or.inl (Or.inr ⟨h, h1⟩)
      · exact Or.inr (Or.inr ⟨h.symm, h1⟩)
    · exact Or.inr (Or.inl h)
  have hr_trans : IsTrans Task (fun a b => compareTasks localeCompare a b ≤ 0) := by
    refine ⟨fun a b c => ?_⟩
    rw [compareTasks_le_iff, compareTasks_le_iff, compareTasks_le_iff]
    rintro (h1 | ⟨h1, h1'⟩) (h2 | ⟨h2, h2'⟩)
    · left; omega
    · left; omega
    · left; omega
    · exact Or.inr ⟨h1.trans h2, htrans _ _ _ h1' h2'⟩
  have hsorted := List.sorted_insertionSort (fun a b => compareTasks localeCompare a b ≤ 0)
    (tasks.filter (fun t => !t.completed && t.dueDate.isSome))
  have hperm := List.perm_insertionSort (fun a b => compareTasks localeCompare a b ≤ 0)
    (tasks.filter (fun t => !t.completed && t.dueDate.isSome))
  have hfil : ∀ t, t ∈ tasks.filter (fun t => !t.completed && t.dueDate.isSome) ↔
      t ∈ tasks ∧ t.completed = false ∧ t.dueDate.isSome = true := by
    intro t
    simp [List.mem_filter]
  refine ⟨?_, ?_, ?_, ?_⟩
  · simp only [upcoming, List.length_take, hperm.length_eq]
  · intro t ht
    exact (hfil t).mp (hperm.subset ((List.take_sublist _ _).subset ht))
  · have h := List.Pairwise.sublist (List.take_sublist 3 _) hsorted
    exact h.imp (fun {a b} hab => (compareTasks_le_iff localeCompare a b).mp hab)
  · intro t ht hc hd hnot
    have hmem : t ∈ (tasks.filter (fun t => !t.completed && t.dueDate.isSome)).insertionSort
        (fun a b => compareTasks localeCompare a b ≤ 0) :=
      hperm.symm.subset ((hfil t).mpr ⟨ht, hc, hd⟩)
    rw [← List.take_append_drop 3 (List.insertionSort _ _)] at hmem hsorted
    have hdrop := (List.mem_append.mp hmem).resolve_left hnot
    refine ⟨?_, ?_⟩
    · have hlen : 3 < ((tasks.filter (fun t => !t.completed && t.dueDate.isSome)).insertionSort
          (fun a b => compareTasks localeCompare a b ≤ 0)).length := by
        by_contra hle
        rw [List.drop_eq_nil_of_le (by omega)] at hdrop
        exact List.not_mem_nil _ hdrop
      simp only [upcoming, List.length_take]
      omega
    · intro u hu
      exact (compareTasks_le_iff localeCompare u t).mp
        ((List.pairwise_append.mp hsorted).2.2 u hu t hdrop)

/-- C18 at its failing input: four incomplete tasks with four different due
dates. Each of them is incomplete and has a due date, but the upcoming list
holds only the three due first: `slice(0, 3)` drops the task due last, which
the claim and the comment of HomeScreen.js:90 (`all incomplete with a due
date`) count in. -/
theorem upcoming_omits_fourth_task :
    (∀ t ∈ fourTasks, t.completed = false ∧ t.dueDate.isSome = true) ∧
      (upcoming codeUnitCompare fourTasks).map Task.id = [4, 3, 2] ∧
      ({ id := 1, completed := false, dueDate := some 4, time := "" } : Task) ∈ fourTasks ∧
      ({ id := 1, completed := false, dueDate := some 4, time := "" } : Task) ∉
        upcoming codeUnitCompare fourTasks := by
  decide

/-! The streak -/

theorem focusByDay_getD (today : Int) (h : List FocusSession) (k : Nat) (hk : k < 7) :
    (focusByDay today h).getD (6 - k) 0 = focusOn h (today - (k : Int)) := by
  interval_cases k <;> simp [focusByDay, days, List.range_succ]

theorem streakLoop_spec (f : List Int) (i acc : Nat) (h : i + acc = 7) :
    acc ≤ streakLoop f i acc ∧ streakLoop f i acc ≤ 7 ∧
      (∀ k, acc ≤ k → k < streakLoop f i acc → 0 < f.getD (6 - k) 0) ∧
      (streakLoop f i acc < 7 → f.getD (6 - streakLoop f i acc) 0 ≤ 0) := by
  induction i generalizing acc with
  | zero =>
    simp only [streakLoop]
    exact ⟨le_refl _, by omega, fun k h1 h2 => by omega, fun h1 => by omega⟩
  | succ i ih =>
    have hi : 6 - acc = i := by omega
    simp only [streakLoop]
    split_ifs with hpos
    · obtain ⟨h1, h2, h3, h4⟩ := ih (acc + 1) (by omega)
      refine ⟨by omega, h2, fun k hk1 hk2 => ?_, h4⟩
      by_cases hk : k = acc
      · rw [hk, hi]; exact hpos
      · exact h3 k (by omega) hk2
    · refine ⟨le_refl _, by omega, fun k h1 h2 => by omega, fun _ => ?_⟩
      rw [hi]; omega

/-- What `streak` computes: the number of consecutive days, counting back from
today and looking at the last 7 days only, on each of which the durations of
the sessions dated that day sum to more than 0. It is at most 7, each of the
`streak` days that end today has a positive sum, and when the streak is less
than 7 the day before them has none. -/
theorem streak_spec (today : Int) (focusHistory : List FocusSession) :
    streak today focusHistory ≤ 7 ∧
      (∀ j : Nat, j < streak today focusHistory →
        0 < focusOn focusHistory (today - (j : Int))) ∧
      (streak today focusHistory < 7 →
        focusOn focusHistory (today - (streak today focusHistory : Int)) ≤ 0) := by
  obtain ⟨_, h2, h3, h4⟩ := streakLoop_spec (focusByDay today focusHistory) 7 0 rfl
  refine ⟨h2, fun j hj => ?_, fun hlt => ?_⟩
  · have hj7 : j < 7 := lt_of_lt_of_le hj h2
    rw [← focusByDay_getD today focusHistory j hj7]
    exact h3 j (Nat.zero_le _) hj
  · rw [← focusByDay_getD today focusHistory _ hlt]
    exact h4 hlt

/-- C19 at its failing input: a history with one session of 25 minutes on each
of the 8 days that end today. Each of the 8 days has a session, so the count of
consecutive days with at least one session is 8, but the streak is 7: the loop
looks at the last 7 days only, against the claim and the comment of
HomeScreen.js:96. -/
theorem streak_of_eight_days :
    (∀ k : Nat, k < 8 → (eightDays 100).any (fun s => s.date = 100 - (k : Int)) = true) ∧
      streakSpec 100 (eightDays 100) = 8 ∧ streak 100 (eightDays 100) = 7 := by
  decide

end Home

namespace Planner

/-! The reminder instant -/

/-- In a time zone at or east of UTC (offset from 0 up to, not including, 24
hours) `getTaskNotificationDate` returns the instant on the due date at `h:m`
(09:00 for an empty time), and `null` exactly when that instant is earlier than
the current time. -/
theorem notification_date_east_of_utc (offset now dueDate : Int) (h0 : 0 ≤ offset)
    (h1 : offset < dayMs) (h m : Nat) :
    getTaskNotificationDate offset now dueDate (some (h, m)) =
        (if instantOnDueDate offset dueDate h m < now then none
         else some (instantOnDueDate offset dueDate h m)) ∧
      getTaskNotificationDate offset now dueDate none =
        (if instantOnDueDate offset dueDate 9 0 < now then none
         else some (instantOnDueDate offset dueDate 9 0)) := by
  have hday : (newDate dueDate + offset) / dayMs = dueDate := by
    unfold newDate dayMs at *
    omega
  have hs : ∀ a b : Nat, setHours offset (newDate dueDate) a b =
      instantOnDueDate offset dueDate a b := by
    intro a b
    unfold setHours instantOnDueDate
    rw [hday]
    ring
  simp only [getTaskNotificationDate, hs, and_self]

/-- C20 at its failing input: in a time zone 5 hours west of UTC, for the due
day 20000 and the time `23:00`, at noon local time of the due day the instant
on the due date at 23:00 is not earlier than the current time, yet
`getTaskNotificationDate` returns `null`; asked two days earlier it returns
23:00 of the day before the due date. -/
theorem notification_date_west_of_utc :
    ¬ instantOnDueDate (-18000000) 20000 23 0 < instantOnDueDate (-18000000) 20000 12 0 ∧
      getTaskNotificationDate (-18000000) (instantOnDueDate (-18000000) 20000 12 0) 20000
        (some (23, 0)) = none ∧
      getTaskNotificationDate (-18000000) (instantOnDueDate (-18000000) 19998 12 0) 20000
        (some (23, 0)) = some (instantOnDueDate (-18000000) 19999 23 0) ∧
      instantOnDueDate (-18000000) 19999 23 0 ≠ instantOnDueDate (-18000000) 20000 23 0 := by
  decide

end Planner

namespace Timer

/-! Reset, skipped breaks -/

theorem handleReset_countdownTime (s : State) :
    (handleReset s).countdownTime = s.countdownTime ∧ (handleReset s).isRunning = false := by
  unfold handleReset
  split_ifs <;> exact ⟨rfl, rfl⟩

/-- C21 at its failing input: in Countdown mode the user selects 15 minutes
(900 seconds), starts the timer, 10 interval callbacks elapse and the user
presses Reset. The timer is not running, but the countdown time is 890, the
elapsed value, not the selected 900: `setCountdownTime(countdownTime)` writes
the current value back. -/
theorem countdown_reset_keeps_elapsed :
    (selectDuration 15 (setMode .countdown State.initial)).countdownTime = 900 ∧
      (ticks 10 (handleStart (selectDuration 15 (setMode .countdown State.initial)))).countdownTime
        = 890 ∧
      (handleReset (ticks 10 (handleStart
        (selectDuration 15 (setMode .countdown State.initial))))).countdownTime = 890 ∧
      (handleReset (ticks 10 (handleStart
        (selectDuration 15 (setMode .countdown State.initial))))).isRunning = false := by
  decide

/-- C22: with `skipCount < 2` (`MAX_FREE_SKIPS`) `handleSkipBreak` increments
`skipCount` by 1, clears `isBreak` and sets `remaining` to `focusDuration * 60`
and makes no ad call; with `skipCount >= 2` it requests the rewarded ad and
makes the same changes when the request and the show both succeed, and when
either fails the state (so `skipCount`, `isBreak` and `remaining`) is
unchanged. -/
theorem skip_break_gating (ad : Ad) (s : State) :
    MAX_FREE_SKIPS = 2 ∧
      (s.skipCount < 2 →
        handleSkipBreak ad s =
          ({ s with skipCount := s.skipCount + 1, isBreak := false,
                    remaining := s.focusDuration * 60 }, [])) ∧
      (2 ≤ s.skipCount → ad.requestOk = true → ad.showOk = true →
        handleSkipBreak ad s =
          ({ s with skipCount := s.skipCount + 1, isBreak := false,
                    remaining := s.focusDuration * 60 }, [.request, .show])) ∧
      (2 ≤ s.skipCount → ad.requestOk = false ∨ ad.showOk = false →
        (handleSkipBreak ad s).1 = s ∧ (handleSkipBreak ad s).2 ≠ []) := by
  refine ⟨rfl, ?_, ?_, ?_⟩
  · intro h
    simp [handleSkipBreak, MAX_FREE_SKIPS, h, skipBreak]
  · intro h h1 h2
    have : ¬ s.skipCount < 2 := by omega
    simp [handleSkipBreak, MAX_FREE_SKIPS, this, h1, h2, skipBreak]
  · intro h h1
    have : ¬ s.skipCount < 2 := by omega
    rcases h1 with h1 | h1
    · simp [handleSkipBreak, MAX_FREE_SKIPS, this, h1]
    · cases hr : ad.requestOk <;> simp [handleSkipBreak, MAX_FREE_SKIPS, this, h1, hr]

/-- Witness of C22: the third skip with an ad whose show fails. -/
theorem skip_break_gating_witness :
    (handleSkipBreak { requestOk := true, showOk := false }
        { State.initial with skipCount := 2, isBreak := true }).1 =
      { State.initial with skipCount := 2, isBreak := true } :=
  ((skip_break_gating { requestOk := true, showOk := false }
    { State.initial with skipCount := 2, isBreak := true }).2.2.2 (le_refl 2) (Or.inr rfl)).1

end Timer

namespace Analysis

/-- What `getWeekRange` computes, in local calendar days: with `d` the local
day of `new Date(date)` and `w` its weekday, `monday = d - ((w + 6) mod 7)`
falls on a Monday, `sunday = monday + 6` falls on a Sunday, and
`monday <= d <= sunday`. -/
theorem getWeekRange_days (offset date : Int) :
    (getWeekRange offset date).1 =
        localDay offset (newDate date) - (getDay (localDay offset (newDate date)) + 6) % 7 ∧
      getDay (getWeekRange offset date).1 = 1 ∧
      (getWeekRange offset date).2 = (getWeekRange offset date).1 + 6 ∧
      getDay (getWeekRange offset date).2 = 0 ∧
      (getWeekRange offset date).1 ≤ localDay offset (newDate date) ∧
      localDay offset (newDate date) ≤ (getWeekRange offset date).2 := by
  simp only [getWeekRange, getDay]
  generalize localDay offset (newDate date) = d
  refine ⟨?_, ?_, ?_, ?_, ?_, ?_⟩
  all_goals first
    | trivial
    | omega

/-- In a time zone at or east of UTC (offset from 0 up to, not including, 24
hours) the local day of `new Date(date)` is the day of the text, so the week
returned contains it. -/
theorem getWeekRange_east_of_utc (offset date : Int) (h0 : 0 ≤ offset) (h1 : offset < dayMs) :
    localDay offset (newDate date) = date ∧
      (getWeekRange offset date).1 ≤ date ∧ date ≤ (getWeekRange offset date).2 := by
  have hd : localDay offset (newDate date) = date := by
    unfold localDay newDate dayMs at *
    omega
  have h := getWeekRange_days offset date
  rw [hd] at h
  exact ⟨hd, h.2.2.2.2.1, h.2.2.2.2.2⟩

/-- C23 at its failing input: in a time zone 5 hours west of UTC,
`getWeekRange('2024-09-30')` (day 19996, a Monday). Midnight UTC of that day is
19:00 of Sunday 2024-09-29 locally, so the result is Monday 2024-09-23 (day
19989) to Sunday 2024-09-29 (day 19995): `monday` is not the argument's day
minus `(1 + 6) mod 7 = 0` days and the week does not contain the argument,
against the claim and the comment of AnalysisScreen.js:53. -/
theorem week_range_west_of_utc :
    getDay 19996 = 1 ∧ localDay (-18000000) (newDate 19996) = 19995 ∧
      getWeekRange (-18000000) 19996 = (19989, 19995) ∧
      (getWeekRange (-18000000) 19996).1 ≠ 19996 - (getDay 19996 + 6) % 7 ∧
      ¬ (19996 ≤ (getWeekRange (-18000000) 19996).2) := by
  decide

end Analysis

namespace Timer

/-! The custom countdown and the custom durations -/

theorem digit_bounds (c : Char) (h : c.isDigit = true) : 48 ≤ c.toNat ∧ c.toNat ≤ 57 := by
  simp only [Char.isDigit, Bool.and_eq_true, decide_eq_true_eq] at h
  obtain ⟨h1, h2⟩ := h
  have h1' : (48 : UInt32).toNat ≤ c.val.toNat := h1
  have h2' : c.val.toNat ≤ (57 : UInt32).toNat := h2
  exact ⟨h1', h2'⟩

theorem digit_facts (c : Char) (h : c.isDigit = true) :
    isStrWhiteSpace c = false ∧ c ≠ '-' ∧ c ≠ '+' ∧ c ≠ ':' := by
  refine ⟨?_, ?_, ?_, ?_⟩
  · obtain ⟨h1, h2⟩ := digit_bounds c h
    cases hw : isStrWhiteSpace c with
    | false => rfl
    | true =>
      simp only [isStrWhiteSpace, strWhiteSpace, List.contains_eq_any_beq, List.any_cons,
        List.any_nil, Bool.or_false, Bool.or_eq_true, beq_iff_eq] at hw
      omega
  · rintro rfl; revert h; decide
  · rintro rfl; revert h; decide
  · rintro rfl; revert h; decide

theorem roundNat_of_lt (n : Nat) (h : n < 2 ^ 53) : roundNat n = n := by
  have hs : shiftBits 1024 n = 0 := by
    show (if n < 2 ^ 53 then 0 else 1 + shiftBits 1023 (n / 2)) = 0
    rw [if_pos h]
  simp [roundNat, hs, Nat.mod_one]

theorem toDouble_of_lt (z : Int) (h0 : 0 ≤ z) (h : z < 2 ^ 53) : toDouble z = z := by
  have hn : z.natAbs < 2 ^ 53 := by omega
  have hz : ¬ z < 0 := by omega
  simp only [toDouble, hz, if_false, roundNat_of_lt _ hn]
  omega

theorem parseInt_digits (a : List Char) (ha : a ≠ []) (hd : ∀ c ∈ a, c.isDigit = true)
    (hv : Room.readDecimal a < 2 ^ 53) :
    parseInt a = .num (Room.readDecimal a : Int) := by
  obtain ⟨c, r, rfl⟩ := List.exists_cons_of_ne_nil ha
  obtain ⟨h1, h2, h3, _⟩ := digit_facts c (hd c (List.mem_cons_self _ _))
  have hdrop : (c :: r).dropWhile isStrWhiteSpace = c :: r := by
    simp [List.dropWhile_cons, h1]
  have htake : (c :: r).takeWhile Char.isDigit = c :: r :=
    List.takeWhile_eq_self_iff.mpr hd
  have hm : ¬ ((some c : Option Char) = some '-') := by simpa using h2
  have hp : ¬ ((some c : Option Char) = some '+') := by simpa using h3
  have h20 : Room.readDecimal (c :: r) < 10 ^ 20 := lt_trans hv (by decide)
  have hdb : toDouble (Room.readDecimal (c :: r) : Int) = (Room.readDecimal (c :: r) : Int) :=
    toDouble_of_lt _ (Int.ofNat_nonneg _) (by exact_mod_cast hv)
  simp only [parseInt, hdrop, List.head?_cons, hm, hp, or_self, if_false, htake, decide_False,
    Bool.false_eq_true, h20, if_true, hdb]
  simp

theorem parseInt_nan_of_head (c : Char) (rest : List Char) (hd : c.isDigit = false)
    (hw : isStrWhiteSpace c = false) (hm : c ≠ '-') (hp : c ≠ '+') :
    parseInt (c :: rest) = .nan := by
  have hdrop : (c :: rest).dropWhile isStrWhiteSpace = c :: rest := by
    simp [List.dropWhile_cons, hw]
  have htake : (c :: rest).takeWhile Char.isDigit = [] := by
    simp [List.takeWhile_cons, hd]
  have hm' : ¬ ((some c : Option Char) = some '-') := by simpa using hm
  have hp' : ¬ ((some c : Option Char) = some '+') := by simpa using hp
  simp only [parseInt, hdrop, List.head?_cons, hm', hp', or_self, if_false, htake, if_true]

theorem splitColon_append (a b : List Char) (ha : ':' ∉ a) :
    splitColon (a ++ ':' :: b) = a :: splitColon b := by
  induction a with
  | nil => simp [splitColon]
  | cons c cs ih =>
    have hc : c ≠ ':' := fun h => ha (by simp [h])
    have hcs : ':' ∉ cs := fun h => ha (List.mem_cons_of_mem _ h)
    have ih' := ih hcs
    simp only [List.cons_append, splitColon, hc, if_false]
    show (match splitColon (cs ++ ':' :: b) with
      | [] => [[c]]
      | f :: fs => (c :: f) :: fs) = (c :: cs) :: splitColon b
    rw [ih']

theorem splitColon_of_no_colon (b : List Char) (hb : ':' ∉ b) : splitColon b = [b] := by
  induction b with
  | nil => rfl
  | cons c cs ih =>
    have hc : c ≠ ':' := fun h => hb (by simp [h])
    have hcs : ':' ∉ cs := fun h => hb (List.mem_cons_of_mem _ h)
    simp only [splitColon, hc, if_false, ih hcs]

theorem handleCustomCountdown_colon (s : State) (a b : List Char) (ha : ':' ∉ a)
    (hb : ':' ∉ b) :
    (handleCustomCountdown { s with customCountdown := String.mk (a ++ ':' :: b) }).map
        State.countdownTime =
      (parseInt a).orZero.bind fun m =>
        (parseInt b).orZero.map fun x => toDouble (toDouble (m * 60) + x) := by
  have hin : ':' ∈ a ++ ':' :: b := by simp
  simp only [handleCustomCountdown, hin, if_true, splitColon_append a b ha,
    splitColon_of_no_colon b hb, List.get?_cons_zero, List.get?_cons_succ]
  generalize (parseInt a).orZero = pa
  generalize (parseInt b).orZero = pb
  cases pa <;> cases pb <;> rfl

theorem handleCustomCountdown_plain (s : State) (a : List Char) (ha : ':' ∉ a) :
    (handleCustomCountdown { s with customCountdown := String.mk a }).map State.countdownTime =
      (parseInt a).orZero.map fun m => toDouble (toDouble (m * 60) + 0) := by
  simp only [handleCustomCountdown, ha, if_false]
  generalize (parseInt a).orZero = pa
  cases pa <;> rfl

theorem no_colon_of_digits (a : List Char) (hd : ∀ c ∈ a, c.isDigit = true) : ':' ∉ a :=
  fun h => (digit_facts ':' (hd ':' h)).2.2.2 rfl

/-- C24, as the code has it: for every input `m:s` whose two fields are
non-empty texts of decimal digits with `60 * m + s` below `2 ^ 53` (where the
Number arithmetic is exact) the Set button of the custom countdown sets the
countdown time to `60 * m + s` seconds; for an input without colon that is such
a text `m` it sets `60 * m`; and a field for which `parseInt` gives `NaN`, as
the empty field and a field that begins with a character other than a digit, a
white space character or a sign, counts as 0. -/
theorem custom_countdown_spec (s : State) (a b : List Char) (ha : a ≠ [])
    (hda : ∀ c ∈ a, c.isDigit = true) (hb : b ≠ []) (hdb : ∀ c ∈ b, c.isDigit = true)
    (hsafe : 60 * Room.readDecimal a + Room.readDecimal b < 2 ^ 53) :
    (handleCustomCountdown { s with customCountdown := String.mk (a ++ ':' :: b) }).map
        State.countdownTime = some (60 * (Room.readDecimal a : Int) + (Room.readDecimal b : Int)) ∧
      (handleCustomCountdown { s with customCountdown := String.mk a }).map State.countdownTime =
        some (60 * (Room.readDecimal a : Int)) ∧
      (∀ x : List Char, ':' ∉ x → parseInt x = .nan →
        (handleCustomCountdown { s with customCountdown := String.mk (x ++ ':' :: b) }).map
            State.countdownTime = some (Room.readDecimal b : Int) ∧
        (handleCustomCountdown { s with customCountdown := String.mk (a ++ ':' :: x) }).map
            State.countdownTime = some (60 * (Room.readDecimal a : Int)) ∧
        (handleCustomCountdown { s with customCountdown := String.mk x }).map
            State.countdownTime = some 0) ∧
      parseInt [] = .nan ∧
      ∀ (c : Char) (rest : List Char), c.isDigit = false → isStrWhiteSpace c = false → c ≠ '-' →
        c ≠ '+' → parseInt (c :: rest) = .nan := by
  have hca := no_colon_of_digits a hda
  have hcb := no_colon_of_digits b hdb
  have hpa := parseInt_digits a ha hda (by omega)
  have hpb := parseInt_digits b hb hdb (by omega)
  have hA : (0 : Int) ≤ Room.readDecimal a := Int.ofNat_nonneg _
  have hB : (0 : Int) ≤ Room.readDecimal b := Int.ofNat_nonneg _
  have hS : (60 * Room.readDecimal a + Room.readDecimal b : Int) < 2 ^ 53 := by exact_mod_cast hsafe
  have h1 : toDouble ((Room.readDecimal a : Int) * 60) = (Room.readDecimal a : Int) * 60 :=
    toDouble_of_lt _ (by omega) (by omega)
  have h2 : toDouble ((Room.readDecimal a : Int) * 60 + (Room.readDecimal b : Int)) =
      (Room.readDecimal a : Int) * 60 + (Room.readDecimal b : Int) :=
    toDouble_of_lt _ (by omega) (by omega)
  have h3 : toDouble ((Room.readDecimal a : Int) * 60 + 0) = (Room.readDecimal a : Int) * 60 := by
    rw [add_zero]; exact h1
  have h4 : toDouble (toDouble ((0 : Int) * 60) + (Room.readDecimal b : Int)) =
      (Room.readDecimal b : Int) := by
    have h0 : toDouble ((0 : Int) * 60) = 0 := by decide
    rw [h0, zero_add]
    exact toDouble_of_lt _ hB (by omega)
  have h5 : toDouble (toDouble ((0 : Int) * 60) + 0) = 0 := by decide
  refine ⟨?_, ?_, ?_, by decide, parseInt_nan_of_head⟩
  · rw [handleCustomCountdown_colon s a b hca hcb, hpa, hpb]
    simp only [Parsed.orZero, Option.some_bind, Option.map_some', h1, h2]
    congr 1; ring
  · rw [handleCustomCountdown_plain s a hca, hpa]
    simp only [Parsed.orZero, Option.map_some', h1, h3]
    congr 1; ring
  · intro x hx hpx
    refine ⟨?_, ?_, ?_⟩
    · rw [handleCustomCountdown_colon s x b hx hcb, hpx, hpb]
      simp only [Parsed.orZero, Option.some_bind, Option.map_some', h4]
    · rw [handleCustomCountdown_colon s a x hca hx, hpx, hpa]
      simp only [Parsed.orZero, Option.some_bind, Option.map_some', h1, h3]
      congr 1; ring
    · rw [handleCustomCountdown_plain s x hx, hpx]
      simp only [Parsed.orZero, Option.map_some', h5]

/-- Witness of C24: `2:30` gives 150 seconds and `5` gives 300. -/
theorem custom_countdown_spec_witness :
    (handleCustomCountdown { State.initial with customCountdown := "2:30" }).map
        State.countdownTime = some 150 ∧
      (handleCustomCountdown { State.initial with customCountdown := "5" }).map
        State.countdownTime = some (60 * (Room.readDecimal ['5'] : Int)) :=
  ⟨by decide,
    (custom_countdown_spec State.initial ['5'] ['0'] (by decide) (by decide) (by decide)
      (by decide) (by decide)).2.1⟩

/-- C24 as stated fails: not every input without colon that is a decimal
natural `m` sets the countdown time to `60 * m`. For the input
`9007199254740993` the call of `parseInt` gives the nearest Number
9007199254740992 and the countdown time is set to 540431955284459520; and for
the input of a vertical tab followed by `5`, a field that does not start with a
number, the white space is skipped and the countdown time is set to 300, not to
0. -/
theorem custom_countdown_counterexample :
    (¬ ∀ (s : State) (a : List Char), a ≠ [] → (∀ c ∈ a, c.isDigit = true) →
        (handleCustomCountdown { s with customCountdown := String.mk a }).map State.countdownTime =
          some (60 * (Room.readDecimal a : Int))) ∧
    ((handleCustomCountdown { State.initial with customCountdown := "9007199254740993" }).map
        State.countdownTime = some 540431955284459520 ∧
      (540431955284459520 : Int) ≠ 60 * 9007199254740993) ∧
    ((handleCustomCountdown
        { State.initial with customCountdown := String.mk [Char.ofNat 0xB, '5'] }).map
        State.countdownTime = some 300 ∧
      (Char.ofNat 0xB).isDigit = false) := by
  refine ⟨fun h => ?_, by decide, by decide⟩
  have h1 := h State.initial "9007199254740993".data (by decide) (by decide)
  revert h1
  decide

/-- C25: `handleCustomFocus` and `handleCustomBreak` set the duration exactly
when the input is non-empty and `Number` of it is a number `n` with
`1 <= n <= 300`; the duration then becomes `n`, the modal closes and the input
is cleared. For every other input (empty, not a number, below 1 or above 300)
the whole state, the duration and the modal included, is unchanged. -/
theorem custom_duration_spec (toNumber : String → Option ℚ) (s : State) :
    (∀ n, s.customFocus ≠ "" → toNumber s.customFocus = some n → 1 ≤ n → n ≤ 300 →
        handleCustomFocus toNumber s =
          { s with focusDuration := n, showCustomFocus := false, customFocus := "" }) ∧
      (s.customFocus = "" ∨ toNumber s.customFocus = none ∨
          (∃ n, toNumber s.customFocus = some n ∧ (n < 1 ∨ 300 < n)) →
        handleCustomFocus toNumber s = s) ∧
      (∀ n, s.customBreak ≠ "" → toNumber s.customBreak = some n → 1 ≤ n → n ≤ 300 →
        handleCustomBreak toNumber s =
          { s with breakDuration := n, showCustomBreak := false, customBreak := "" }) ∧
      (s.customBreak = "" ∨ toNumber s.customBreak = none ∨
          (∃ n, toNumber s.customBreak = some n ∧ (n < 1 ∨ 300 < n)) →
        handleCustomBreak toNumber s = s) := by
  refine ⟨?_, ?_, ?_, ?_⟩
  · intro n h0 hn h1 h2
    have hl : ¬ n < 1 := not_lt.mpr h1
    have hg : ¬ 300 < n := not_lt.mpr h2
    simp [handleCustomFocus, h0, hn, numLt, numGt, hl, hg]
  · rintro (h | h | ⟨n, hn, h | h⟩)
    · simp [handleCustomFocus, h]
    · simp [handleCustomFocus, h]
    · simp [handleCustomFocus, hn, numLt, h]
    · simp [handleCustomFocus, hn, numGt, h]
  · intro n h0 hn h1 h2
    have hl : ¬ n < 1 := not_lt.mpr h1
    have hg : ¬ 300 < n := not_lt.mpr h2
    simp [handleCustomBreak, h0, hn, numLt, numGt, hl, hg]
  · rintro (h | h | ⟨n, hn, h | h⟩)
    · simp [handleCustomBreak, h]
    · simp [handleCustomBreak, h]
    · simp [handleCustomBreak, hn, numLt, h]
    · simp [handleCustomBreak, hn, numGt, h]

/-- Witness of C25: the input `45` sets the focus duration to 45, the input
`301` changes nothing. -/
theorem custom_duration_spec_witness :
    (handleCustomFocus decimalNumber { State.initial with customFocus := "45" }).focusDuration =
        45 ∧
      handleCustomFocus decimalNumber { State.initial with customFocus := "301" } =
        { State.initial with customFocus := "301" } := by
  have h45 : decimalNumber "45" = some 45 := by
    simp [decimalNumber, Room.readDecimal]
  have h301 : decimalNumber "301" = some 301 := by
    simp [decimalNumber, Room.readDecimal]
  refine ⟨?_, ?_⟩
  · rw [(custom_duration_spec decimalNumber { State.initial with customFocus := "45" }).1 45
      (by decide) h45 (by norm_num) (by norm_num)]
  · exact (custom_duration_spec decimalNumber { State.initial with customFocus := "301" }).2.1
      (Or.inr (Or.inr ⟨301, h301, Or.inr (by norm_num)⟩))

end Timer
